import Mathlib

/-! Arabic plagiarism detector: normalisation, shingling and Jaccard scoring.

A shallow embedding of `plagiarism_detector.cpp` (class `PlagiarismDetector`) together with
the properties its specification states about it.

Modelling conventions.

* A `std::string` is a list of bytes (`List Byte`, `Byte = Fin 256`); a `std::wstring` on the
  target platform (32-bit `wchar_t`) is a list of code points (`List Nat`).
* `std::wstring_convert<std::codecvt_utf8<wchar_t>>` is the standard library's UTF-8 / UCS-4
  converter.  It is modelled by `from_bytes` / `to_bytes` below as libstdc++ 12 implements it
  (`codecvt.cc`, `locale_conv.h`): shortest form only and nothing above U+10FFFF, surrogates
  are converted like any other code point, and only a conversion error throws
  `std::range_error`: a text that ends inside a multi-byte sequence is converted up to that
  sequence, without an exception.
* `iswpunct` / `iswdigit` consult the process locale; they are taken as a parameter (`CType`).
* C++ exceptions are `Except String`; `double` results are the exact rationals they denote
  (`0`, `1`, `100` and `-1` are exactly representable; any other value, such as `100 / 7`, is
  the rational whose correctly rounded value the `double` is).
* `std::unordered_set<unsigned long long>` is `Finset Nat`.
-/

deriving instance DecidableEq for Except

/-- The member variables of `class PlagiarismDetector`: the window size and the two
fingerprint sets.  `ngram_size` is an `int` that only the constructor sets, always to a positive
value, so its conversions to `size_t` are the identity and it is kept as a natural number. -/
structure PlagiarismDetector where
  ngram_size : Nat
  ngrams1 : Finset Nat
  ngrams2 : Finset Nat

namespace PlagiarismDetector

/-! ## Data model -/

/-- One `char` of a `std::string`, read as `unsigned char`. -/
abbrev Byte := Fin 256

/-- The byte with value `n` (the low eight bits of `n`). -/
def byte (n : Nat) : Byte := ⟨n % 256, Nat.mod_lt n (by decide)⟩

/-- The character classification of the active locale (`iswpunct`, `iswdigit` of `<cwctype>`). -/
structure CType where
  iswpunct : Nat → Bool
  iswdigit : Nat → Bool

/-- The classification of the "C" locale: ASCII punctuation and ASCII decimal digits. -/
def cLocale : CType where
  iswpunct := fun c => (33 ≤ c && c ≤ 47) || (58 ≤ c && c ≤ 64) || (91 ≤ c && c ≤ 96)
    || (123 ≤ c && c ≤ 126)
  iswdigit := fun c => 48 ≤ c && c ≤ 57

/-- `const int DEFAULT_NGRAM_SIZE = 3;` -/
def DEFAULT_NGRAM_SIZE : Nat := 3

/-- `const unsigned long long BASE = 256;` -/
def BASE : Nat := 256

/-- `const unsigned long long MOD = 1e9 + 7;` -/
def MOD : Nat := 1000000007

/-! ## The UTF-8 converter (`std::wstring_convert<std::codecvt_utf8<wchar_t>>`) -/

/-- A continuation byte `10xxxxxx`. -/
def isContinuation (b : Byte) : Bool := 0x80 ≤ b.val && b.val < 0xC0

/-- A code point the converter handles: at most U+10FFFF (its `Maxcode`). -/
def isCodePoint (c : Nat) : Bool := c ≤ 0x10FFFF

/-- Prepend a decoded code point to the decoding of the remaining bytes. -/
def consOk (c : Nat) (r : Except String (List Nat)) : Except String (List Nat) :=
  match r with
  | .ok cs => .ok (c :: cs)
  | .error e => .error e

/-- The `what()` of the `std::range_error` thrown by a failed `from_bytes`. -/
def fromBytesError : String := "wstring_convert::from_bytes"

/-- The `what()` of the `std::range_error` thrown by a failed `to_bytes`. -/
def toBytesError : String := "wstring_convert::to_bytes"

/-- `conv.from_bytes(utf8_text)`: decode UTF-8 into code points.  The facet reads one
sequence at a time (`read_utf8_code_point`): the lead byte fixes the length of the sequence;
when fewer bytes than that are left the facet reports `partial` and `from_bytes` returns the
code points converted so far; a lead byte that cannot start a sequence, a byte that is not a
continuation, an overlong form or a value above U+10FFFF is a conversion error, on which
`from_bytes` throws `std::range_error`. -/
def from_bytes : List Byte → Except String (List Nat)
  | [] => .ok []
  | c1 :: rest =>
    if c1.val < 0x80 then consOk c1.val (from_bytes rest)
    else if c1.val < 0xC2 then .error fromBytesError
    else if c1.val < 0xE0 then
      match rest with
      | c2 :: rest2 =>
        if isContinuation c2 then
          consOk ((c1.val - 0xC0) * 64 + (c2.val - 0x80)) (from_bytes rest2)
        else .error fromBytesError
      | [] => .ok []
    else if c1.val < 0xF0 then
      match rest with
      | c2 :: c3 :: rest3 =>
        if isContinuation c2 && isContinuation c3 && !(c1.val = 0xE0 && c2.val < 0xA0) then
          consOk ((c1.val - 0xE0) * 4096 + (c2.val - 0x80) * 64 + (c3.val - 0x80))
            (from_bytes rest3)
        else .error fromBytesError
      | _ => .ok []
    else if c1.val < 0xF5 then
      match rest with
      | c2 :: c3 :: c4 :: rest4 =>
        if isContinuation c2 && isContinuation c3 && isContinuation c4
            && !(c1.val = 0xF0 && c2.val < 0x90) && !(c1.val = 0xF4 && 0x90 ≤ c2.val) then
          consOk ((c1.val - 0xF0) * 262144 + (c2.val - 0x80) * 4096 + (c3.val - 0x80) * 64
            + (c4.val - 0x80)) (from_bytes rest4)
        else .error fromBytesError
      | _ => .ok []
    else .error fromBytesError

/-- The UTF-8 encoding of one code point (`write_utf8_code_point`); `none` when it is above
U+10FFFF. -/
def encodeCodePoint (c : Nat) : Option (List Byte) :=
  if c < 0x80 then some [byte c]
  else if c < 0x800 then some [byte (0xC0 + c / 64), byte (0x80 + c % 64)]
  else if c < 0x10000 then
    some [byte (0xE0 + c / 4096), byte (0x80 + c / 64 % 64), byte (0x80 + c % 64)]
  else if c ≤ 0x10FFFF then
    some [byte (0xF0 + c / 262144), byte (0x80 + c / 4096 % 64), byte (0x80 + c / 64 % 64),
      byte (0x80 + c % 64)]
  else none

/-- `conv.to_bytes(normalized)`: encode code points as UTF-8, or throw `std::range_error` on a
code point above U+10FFFF. -/
def to_bytes : List Nat → Except String (List Byte)
  | [] => .ok []
  | c :: cs =>
    match encodeCodePoint c with
    | none => .error toBytesError
    | some bs =>
      match to_bytes cs with
      | .ok out => .ok (bs ++ out)
      | .error e => .error e

/-! ## `normalizeArabicText` -/

/-- The `switch (c)` of the normalisation loop: the folded letter, or `none` for the
`continue` of the tatweel case. -/
def foldLetter (c : Nat) : Option Nat :=
  if c = 0x0622 ∨ c = 0x0623 ∨ c = 0x0625 ∨ c = 0x0671 then some 0x0627
  else if c = 0x0649 ∨ c = 0x064A then some 0x064A
  else if c = 0x0629 then some 0x0647
  else if c = 0x0640 then none
  else some c

/-- One iteration of `for (wchar_t c : wide_text)`, acting on the accumulator `normalized`. -/
def normalizeStep (ct : CType) (normalized : List Nat) (c : Nat) : List Nat :=
  if 0x064B ≤ c ∧ c ≤ 0x0652 then normalized
  else
    match foldLetter c with
    | none => normalized
    | some c' =>
      if ct.iswpunct c' || ct.iswdigit c' then normalized
      else normalized ++ [c']

/-- The normalisation loop over the decoded text, starting from the empty `normalized`. -/
def normalizeWide (ct : CType) (wide_text : List Nat) : List Nat :=
  wide_text.foldl (normalizeStep ct) []

/-- `string normalizeArabicText(const string& utf8_text)`. -/
def normalizeArabicText (ct : CType) (utf8_text : List Byte) : Except String (List Byte) :=
  match from_bytes utf8_text with
  | .error e => .error e
  | .ok wide_text => to_bytes (normalizeWide ct wide_text)

/-! ## Construction and file access -/

/-- `explicit PlagiarismDetector(int size = 0)`: a non-positive size selects the default. -/
def new (size : Int) : PlagiarismDetector where
  ngram_size := if size > 0 then size.toNat else DEFAULT_NGRAM_SIZE
  ngrams1 := ∅
  ngrams2 := ∅

/-- The files visible to the program: the content of each file that can be opened. -/
abbrev FileSystem := String → Option (List Byte)

/-- `string readFileAsUTF8(const string& filename)`: the whole content of the file, or a
`runtime_error` when the file cannot be opened. -/
def readFileAsUTF8 (fs : FileSystem) (filename : String) : Except String (List Byte) :=
  match fs filename with
  | none => .error ("Failed to open file: " ++ filename)
  | some content => .ok content

/-! ## `generateNgrams` -/

/-- The inner loop `for (int j = 0; j < ngram_size; ++j)` for the window starting at `i`:
`hash = (hash * BASE + text[i + j]) % MOD` in 64-bit unsigned arithmetic.  The result is `none`
when some read `text[i + j]` is outside the string. -/
def windowHash (d : PlagiarismDetector) (text : List Byte) (i : Nat) : Option Nat :=
  (List.range d.ngram_size).foldlM (fun hash j =>
    match text[i + j]? with
    | none => none
    | some b => some ((hash * BASE + b.val) % 2 ^ 64 % MOD)) 0

/-- `void generateNgrams(const string& text, unordered_set<unsigned long long>& ngrams)`:
the set `ngrams` after the call, or `none` when a read is outside the string.  Past the guard
`text.length() - ngram_size` does not wrap, so the outer loop runs `i` over
`0 .. text.length() - ngram_size`. -/
def generateNgrams (d : PlagiarismDetector) (text : List Byte) (ngrams : Finset Nat) :
    Option (Finset Nat) :=
  if text.length < d.ngram_size then some ngrams
  else
    (List.range (text.length - d.ngram_size + 1)).foldlM (fun ngrams i =>
      match windowHash d text i with
      | none => none
      | some hash => some (insert hash ngrams)) ngrams

/-! ## `calculateSimilarity` -/

/-- `double calculateSimilarity() const`.  `common` counts the members of `ngrams1` found in
`ngrams2`; it is at most `ngrams1.size()`, so the unsigned subtraction does not wrap. -/
def calculateSimilarity (d : PlagiarismDetector) : ℚ :=
  if d.ngrams1 = ∅ ∧ d.ngrams2 = ∅ then 1
  else if d.ngrams1 = ∅ ∨ d.ngrams2 = ∅ then 0
  else
    let common := (d.ngrams1.filter (fun ngram => ngram ∈ d.ngrams2)).card
    let total_unique := d.ngrams1.card + d.ngrams2.card - common
    (common : ℚ) / (total_unique : ℚ)

/-! ## `compareFiles` -/

/-- The `try` block of `compareFiles`: the value returned or the exception thrown, with the
state of the detector at that point; `none` when `generateNgrams` reads outside a string. -/
def compareFilesBody (ct : CType) (fs : FileSystem) (d : PlagiarismDetector)
    (file1 file2 : String) : Option (Except String ℚ × PlagiarismDetector) :=
  let d := { d with ngrams1 := ∅, ngrams2 := ∅ }
  match readFileAsUTF8 fs file1 with
  | .error e => some (.error e, d)
  | .ok text1 =>
  match readFileAsUTF8 fs file2 with
  | .error e => some (.error e, d)
  | .ok text2 =>
  if text1.isEmpty || text2.isEmpty then some (.error "One or both files are empty", d)
  else
  match normalizeArabicText ct text1 with
  | .error e => some (.error e, d)
  | .ok text1 =>
  match normalizeArabicText ct text2 with
  | .error e => some (.error e, d)
  | .ok text2 =>
  match generateNgrams d text1 d.ngrams1 with
  | none => none
  | some ngrams1 =>
  let d := { d with ngrams1 := ngrams1 }
  match generateNgrams d text2 d.ngrams2 with
  | none => none
  | some ngrams2 =>
  let d := { d with ngrams2 := ngrams2 }
  some (.ok (calculateSimilarity d * 100), d)

/-- `double compareFiles(const string& file1, const string& file2)`: the returned value and the
detector afterwards; every exception of the `try` block becomes the value `-1.0`. -/
def compareFiles (ct : CType) (fs : FileSystem) (d : PlagiarismDetector)
    (file1 file2 : String) : Option (ℚ × PlagiarismDetector) :=
  match compareFilesBody ct fs d file1 file2 with
  | none => none
  | some (.ok similarity, d) => some (similarity, d)
  | some (.error _, d) => some (-1, d)

/-- The value `compareFiles` returns. -/
def compareFilesResult (ct : CType) (fs : FileSystem) (d : PlagiarismDetector)
    (file1 file2 : String) : Option ℚ :=
  (compareFiles ct fs d file1 file2).map Prod.fst

/-! ## `generateNgrams` and `calculateSimilarity` with their error conditions explicit -/

/-- An error condition of the indexing and the unsigned arithmetic of the two functions. -/
inductive Hazard where
  | indexOutOfRange
  | unsignedWrap
  | divisionByZero
  deriving DecidableEq

/-- The `size_t` subtraction `a - b`, or `none` when it would wrap below zero. -/
def checkedSub (a b : Nat) : Option Nat :=
  if b ≤ a then some (a - b) else none

/-- The inner loop of `generateNgrams` with its checks: the read `text[i + j]` must be inside
the string and `hash * BASE + text[i + j]` must fit the 64 bits of `unsigned long long`. -/
def windowHashChecked (d : PlagiarismDetector) (text : List Byte) (i : Nat) :
    Except Hazard Nat :=
  (List.range d.ngram_size).foldlM (fun hash j =>
    match text[i + j]? with
    | none => .error .indexOutOfRange
    | some b =>
      if hash * BASE + b.val < 2 ^ 64 then .ok ((hash * BASE + b.val) % MOD)
      else .error .unsignedWrap) 0

/-- `generateNgrams` with its checks: additionally `text.length() - ngram_size` must not
wrap. -/
def generateNgramsChecked (d : PlagiarismDetector) (text : List Byte) (ngrams : Finset Nat) :
    Except Hazard (Finset Nat) :=
  if text.length < d.ngram_size then .ok ngrams
  else
    match checkedSub text.length d.ngram_size with
    | none => .error .unsignedWrap
    | some last =>
      (List.range (last + 1)).foldlM (fun ngrams i =>
        match windowHashChecked d text i with
        | .error hazard => .error hazard
        | .ok hash => .ok (insert hash ngrams)) ngrams

/-- `calculateSimilarity` with its checks: `ngrams1.size() + ngrams2.size() - common` must not
wrap and the divisor must not be zero. -/
def calculateSimilarityChecked (d : PlagiarismDetector) : Except Hazard ℚ :=
  if d.ngrams1 = ∅ ∧ d.ngrams2 = ∅ then .ok 1
  else if d.ngrams1 = ∅ ∨ d.ngrams2 = ∅ then .ok 0
  else
    let common := (d.ngrams1.filter (fun ngram => ngram ∈ d.ngrams2)).card
    match checkedSub (d.ngrams1.card + d.ngrams2.card) common with
    | none => .error .unsignedWrap
    | some total_unique =>
      if total_unique = 0 then .error .divisionByZero
      else .ok ((common : ℚ) / (total_unique : ℚ))

/-! ## The specification's reference definitions

These follow the wording of the specification rather than the code; the theorems below compare
them with the definitions above. -/

/-- Rule 1: a code point of the Arabic diacritic range U+064B .. U+0652. -/
def isDiacritic (c : Nat) : Bool := 0x064B ≤ c && c ≤ 0x0652

/-- Rule 2, letter folding: alef with madda / hamza / wasla to bare alef, alef-maksura (and
yaa) to yaa, taa-marbuta to haa; every other code point is itself. -/
def specFold (c : Nat) : Nat :=
  if c ∈ [0x0622, 0x0623, 0x0625, 0x0671] then 0x0627
  else if c ∈ [0x0649, 0x064A] then 0x064A
  else if c = 0x0629 then 0x0647
  else c

/-- The normaliser as the specification words it: the rules applied in order over the code
points, each keeping the original relative order: drop the diacritics, fold the letters, drop
the tatweel, drop what is classified as punctuation or digit, keep the rest. -/
def normalizeSpec (ct : CType) (codepoints : List Nat) : List Nat :=
  let withoutDiacritics := codepoints.filter (fun c => !isDiacritic c)
  let folded := withoutDiacritics.map specFold
  let withoutTatweel := folded.filter (fun c => !decide (c = 0x0640))
  withoutTatweel.filter (fun c => !(ct.iswpunct c || ct.iswdigit c))

/-- The same rules read as alternatives, the first applicable one deciding the fate of a code
point (`none` is a dropped code point); here the classification is asked about the code point
as it stands in the input. -/
def specRule (ct : CType) (c : Nat) : Option Nat :=
  if 0x064B ≤ c ∧ c ≤ 0x0652 then none
  else if c = 0x0622 ∨ c = 0x0623 ∨ c = 0x0625 ∨ c = 0x0671 then some 0x0627
  else if c = 0x0649 ∨ c = 0x064A then some 0x064A
  else if c = 0x0629 then some 0x0647
  else if c = 0x0640 then none
  else if (ct.iswpunct c || ct.iswdigit c) = true then none
  else some c

/-- The classification calls none of the three canonical letters (alef, yaa, haa) punctuation
or a digit, as every locale does. -/
def lettersAreLetters (ct : CType) : Bool :=
  !(ct.iswpunct 0x0627 || ct.iswdigit 0x0627) && !(ct.iswpunct 0x064A || ct.iswdigit 0x064A)
    && !(ct.iswpunct 0x0647 || ct.iswdigit 0x0647)

/-- The specification's window hash: `Σ unit[i+j] * BASE^(k-1-j) mod M` over `j = 0 .. k-1`,
with base 256 and modulus 1,000,000,007. -/
def polynomialHash (k : Nat) (text : List Byte) (i : Nat) : Nat :=
  (∑ j in Finset.range k, (text.getD (i + j) 0).val * 256 ^ (k - 1 - j)) % 1000000007

/-- The specification's fingerprint: the window hashes of every starting position `i` with
`0 ≤ i ≤ length - k`. -/
def shingleSet (k : Nat) (text : List Byte) : Finset Nat :=
  ((Finset.range (text.length + 1)).filter (fun i => i + k ≤ text.length)).image
    (polynomialHash k text)

/-- The window of `k` bytes of `text` that starts at position `i`. -/
def windowAt (k : Nat) (text : List Byte) (i : Nat) : List Byte :=
  (text.drop i).take k

/-- The set of the distinct `k`-byte windows of `text` (its distinct byte trigrams for
`k = 3`). -/
def windowSet (k : Nat) (text : List Byte) : Finset (List Byte) :=
  ((Finset.range (text.length + 1)).filter (fun i => i + k ≤ text.length)).image
    (windowAt k text)

/-- The score of section 4.3 computed on sets of windows instead of sets of hashes. -/
def windowSimilarity (W1 W2 : Finset (List Byte)) : ℚ :=
  if W1 = ∅ ∧ W2 = ∅ then 1
  else if W1 = ∅ ∨ W2 = ∅ then 0
  else ((W1 ∩ W2).card : ℚ) / ((W1 ∪ W2).card : ℚ)

/-- The code point sequence `y` is `x` with diacritics (U+064B .. U+0652) inserted at
arbitrary positions. -/
def isDiacriticInsertion : List Nat → List Nat → Bool
  | [], [] => true
  | _ :: _, [] => false
  | [], m :: ys => isDiacritic m && isDiacriticInsertion [] ys
  | c :: xs, m :: ys =>
    (decide (c = m) && isDiacriticInsertion xs ys)
      || (isDiacritic m && isDiacriticInsertion (c :: xs) ys)

/-! ## Auxiliary definitions used in the proofs -/

/-- A code point the loop emits: not a diacritic, not tatweel, not punctuation, not a digit,
and a fixed point of the letter fold. -/
def isNormal (ct : CType) (c : Nat) : Prop :=
  isDiacritic c = false ∧ c ≠ 0x0640 ∧ ct.iswpunct c = false ∧ ct.iswdigit c = false
    ∧ specFold c = c

/-- The unreduced polynomial of the window of `m` bytes starting at `i`. -/
def windowSum (m : Nat) (text : List Byte) (i : Nat) : Nat :=
  ∑ j in Finset.range m, (text.getD (i + j) 0).val * 256 ^ (m - 1 - j)

/-- One step of the inner loop, with the read in range. -/
def hashStep (text : List Byte) (i : Nat) (hash j : Nat) : Option Nat :=
  match text[i + j]? with
  | none => none
  | some b => some ((hash * BASE + b.val) % 2 ^ 64 % MOD)

/-! ## Sample inputs -/

/-- The text "أَ,a": alef with hamza above (U+0623), fatha (U+064E), a comma and the letter a. -/
def decoratedText : List Byte := [byte 0xD8, byte 0xA3, byte 0xD9, byte 0x8E, byte 0x2C, byte 0x61]

/-- The text "أ,a": `decoratedText` without its fatha. -/
def plainText : List Byte := [byte 0xD8, byte 0xA3, byte 0x2C, byte 0x61]

/-- A file system with a decorated, a plain and an empty file. -/
def sampleFiles : FileSystem := fun name =>
  if name = "decorated.txt" then some decoratedText
  else if name = "plain.txt" then some plainText
  else if name = "empty.txt" then some []
  else none

/-- The text "abcdef". -/
def asciiAbcdef : List Byte := [byte 97, byte 98, byte 99, byte 100, byte 101, byte 102]

/-- The text "abcxyz". -/
def asciiAbcxyz : List Byte := [byte 97, byte 98, byte 99, byte 120, byte 121, byte 122]

/-- The text "أحمد": U+0623 U+062D U+0645 U+062F. -/
def ahmadHamza : List Byte :=
  [byte 0xD8, byte 0xA3, byte 0xD8, byte 0xAD, byte 0xD9, byte 0x85, byte 0xD8, byte 0xAF]

/-- The text "احمد": U+0627 U+062D U+0645 U+062F. -/
def ahmadBare : List Byte :=
  [byte 0xD8, byte 0xA7, byte 0xD8, byte 0xAD, byte 0xD9, byte 0x85, byte 0xD8, byte 0xAF]

/-- A byte string that is not UTF-8: the letter a followed by the byte 0xFF. -/
def invalidText : List Byte := [byte 0x61, byte 0xFF]

/-- A file system holding the texts of the scenarios. -/
def scenarioFiles : FileSystem := fun name =>
  if name = "abcdef.txt" then some asciiAbcdef
  else if name = "abcxyz.txt" then some asciiAbcxyz
  else if name = "hamza.txt" then some ahmadHamza
  else if name = "bare.txt" then some ahmadBare
  else if name = "invalid.txt" then some invalidText
  else if name = "empty.txt" then some []
  else none

/-! ## The UTF-8 converter: decoding inverts encoding -/

theorem byte_val (n : Nat) (h : n < 256) : (byte n).val = n := by
  show n % 256 = n
  exact Nat.mod_eq_of_lt h

theorem from_bytes_nil : from_bytes [] = .ok [] := rfl

theorem from_bytes_cons (c1 : Byte) (rest : List Byte) :
    from_bytes (c1 :: rest) =
      if c1.val < 0x80 then consOk c1.val (from_bytes rest)
      else if c1.val < 0xC2 then .error fromBytesError
      else if c1.val < 0xE0 then
        match rest with
        | c2 :: rest2 =>
          if isContinuation c2 then
            consOk ((c1.val - 0xC0) * 64 + (c2.val - 0x80)) (from_bytes rest2)
          else .error fromBytesError
        | [] => .ok []
      else if c1.val < 0xF0 then
        match rest with
        | c2 :: c3 :: rest3 =>
          if isContinuation c2 && isContinuation c3 && !(c1.val = 0xE0 && c2.val < 0xA0) then
            consOk ((c1.val - 0xE0) * 4096 + (c2.val - 0x80) * 64 + (c3.val - 0x80))
              (from_bytes rest3)
          else .error fromBytesError
        | _ => .ok []
      else if c1.val < 0xF5 then
        match rest with
        | c2 :: c3 :: c4 :: rest4 =>
          if isContinuation c2 && isContinuation c3 && isContinuation c4
              && !(c1.val = 0xF0 && c2.val < 0x90) && !(c1.val = 0xF4 && 0x90 ≤ c2.val) then
            consOk ((c1.val - 0xF0) * 262144 + (c2.val - 0x80) * 4096 + (c3.val - 0x80) * 64
              + (c4.val - 0x80)) (from_bytes rest4)
          else .error fromBytesError
        | _ => .ok []
      else .error fromBytesError := by
  rcases rest with _ | ⟨c2, _ | ⟨c3, _ | ⟨c4, rest4⟩⟩⟩ <;> rfl

theorem from_bytes_one (c1 : Byte) (rest : List Byte) (h : c1.val < 0x80) :
    from_bytes (c1 :: rest) = consOk c1.val (from_bytes rest) := by
  rw [from_bytes_cons]; simp only [h, if_true]

theorem from_bytes_two (c1 c2 : Byte) (rest : List Byte) (h1 : 0xC2 ≤ c1.val)
    (h2 : c1.val < 0xE0) (k2 : isContinuation c2 = true) :
    from_bytes (c1 :: c2 :: rest)
      = consOk ((c1.val - 0xC0) * 64 + (c2.val - 0x80)) (from_bytes rest) := by
  rw [from_bytes_cons]
  have a1 : ¬ (c1.val < 0x80) := by omega
  have a2 : ¬ (c1.val < 0xC2) := by omega
  simp only [a1, a2, h2, k2, if_true, if_false]

theorem from_bytes_three (c1 c2 c3 : Byte) (rest : List Byte) (h1 : 0xE0 ≤ c1.val)
    (h2 : c1.val < 0xF0) (k2 : isContinuation c2 = true) (k3 : isContinuation c3 = true)
    (o1 : ¬ (c1.val = 0xE0 ∧ c2.val < 0xA0)) :
    from_bytes (c1 :: c2 :: c3 :: rest)
      = consOk ((c1.val - 0xE0) * 4096 + (c2.val - 0x80) * 64 + (c3.val - 0x80))
          (from_bytes rest) := by
  rw [from_bytes_cons]
  have a1 : ¬ (c1.val < 0x80) := by omega
  have a2 : ¬ (c1.val < 0xC2) := by omega
  have a3 : ¬ (c1.val < 0xE0) := by omega
  have b1 : (decide (c1.val = 0xE0) && decide (c2.val < 0xA0)) = false := by
    simpa using o1
  simp only [a1, a2, a3, h2, k2, k3, b1, if_true, if_false, Bool.and_self, Bool.not_false]

theorem from_bytes_four (c1 c2 c3 c4 : Byte) (rest : List Byte) (h1 : 0xF0 ≤ c1.val)
    (h2 : c1.val < 0xF5) (k2 : isContinuation c2 = true) (k3 : isContinuation c3 = true)
    (k4 : isContinuation c4 = true)
    (o1 : ¬ (c1.val = 0xF0 ∧ c2.val < 0x90)) (o2 : ¬ (c1.val = 0xF4 ∧ 0x90 ≤ c2.val)) :
    from_bytes (c1 :: c2 :: c3 :: c4 :: rest)
      = consOk ((c1.val - 0xF0) * 262144 + (c2.val - 0x80) * 4096 + (c3.val - 0x80) * 64
          + (c4.val - 0x80)) (from_bytes rest) := by
  rw [from_bytes_cons]
  have a1 : ¬ (c1.val < 0x80) := by omega
  have a2 : ¬ (c1.val < 0xC2) := by omega
  have a3 : ¬ (c1.val < 0xE0) := by omega
  have a4 : ¬ (c1.val < 0xF0) := by omega
  have b1 : (decide (c1.val = 0xF0) && decide (c2.val < 0x90)) = false := by
    simpa using o1
  have b2 : (decide (c1.val = 0xF4) && decide (0x90 ≤ c2.val)) = false := by
    simpa using o2
  simp only [a1, a2, a3, a4, h2, k2, k3, k4, b1, b2, if_true, if_false, Bool.and_self,
    Bool.not_false]

theorem isContinuation_byte (n : Nat) (h1 : 0x80 ≤ n) (h2 : n < 0xC0) :
    isContinuation (byte n) = true := by
  have e := byte_val n (by omega)
  simp only [isContinuation, e, Bool.and_eq_true, decide_eq_true_eq]
  omega

theorem from_bytes_enc1 (a : Nat) (rest : List Byte) (h : a < 0x80) :
    from_bytes (byte a :: rest) = consOk a (from_bytes rest) := by
  have e := byte_val a (by omega)
  rw [from_bytes_one _ _ (by rw [e]; exact h), e]

theorem from_bytes_enc2 (a b : Nat) (rest : List Byte) (h1 : 0xC2 ≤ a) (h2 : a < 0xE0)
    (hb1 : 0x80 ≤ b) (hb2 : b < 0xC0) :
    from_bytes (byte a :: byte b :: rest)
      = consOk ((a - 0xC0) * 64 + (b - 0x80)) (from_bytes rest) := by
  have ea := byte_val a (by omega)
  have eb := byte_val b (by omega)
  rw [from_bytes_two (byte a) (byte b) rest (by rw [ea]; exact h1) (by rw [ea]; exact h2)
    (isContinuation_byte b hb1 hb2), ea, eb]

theorem from_bytes_enc3 (a b c : Nat) (rest : List Byte) (h1 : 0xE0 ≤ a) (h2 : a < 0xF0)
    (hb1 : 0x80 ≤ b) (hb2 : b < 0xC0) (hc1 : 0x80 ≤ c) (hc2 : c < 0xC0)
    (o1 : ¬ (a = 0xE0 ∧ b < 0xA0)) :
    from_bytes (byte a :: byte b :: byte c :: rest)
      = consOk ((a - 0xE0) * 4096 + (b - 0x80) * 64 + (c - 0x80)) (from_bytes rest) := by
  have ea := byte_val a (by omega)
  have eb := byte_val b (by omega)
  have ec := byte_val c (by omega)
  rw [from_bytes_three (byte a) (byte b) (byte c) rest (by rw [ea]; exact h1)
    (by rw [ea]; exact h2) (isContinuation_byte b hb1 hb2) (isContinuation_byte c hc1 hc2)
    (by rw [ea, eb]; exact o1), ea, eb, ec]

theorem from_bytes_enc4 (a b c e : Nat) (rest : List Byte) (h1 : 0xF0 ≤ a) (h2 : a < 0xF5)
    (hb1 : 0x80 ≤ b) (hb2 : b < 0xC0) (hc1 : 0x80 ≤ c) (hc2 : c < 0xC0)
    (he1 : 0x80 ≤ e) (he2 : e < 0xC0)
    (o1 : ¬ (a = 0xF0 ∧ b < 0x90)) (o2 : ¬ (a = 0xF4 ∧ 0x90 ≤ b)) :
    from_bytes (byte a :: byte b :: byte c :: byte e :: rest)
      = consOk ((a - 0xF0) * 262144 + (b - 0x80) * 4096 + (c - 0x80) * 64 + (e - 0x80))
          (from_bytes rest) := by
  have ea := byte_val a (by omega)
  have eb := byte_val b (by omega)
  have ec := byte_val c (by omega)
  have ee := byte_val e (by omega)
  rw [from_bytes_four (byte a) (byte b) (byte c) (byte e) rest (by rw [ea]; exact h1)
    (by rw [ea]; exact h2) (isContinuation_byte b hb1 hb2) (isContinuation_byte c hc1 hc2)
    (isContinuation_byte e he1 he2)
    (by rw [ea, eb]; exact o1) (by rw [ea, eb]; exact o2), ea, eb, ec, ee]

theorem from_bytes_encode (c : Nat) (h : isCodePoint c = true) (rest : List Byte) :
    ∃ bs, encodeCodePoint c = some bs
      ∧ from_bytes (bs ++ rest) = consOk c (from_bytes rest) := by
  simp only [isCodePoint, decide_eq_true_eq] at h
  unfold encodeCodePoint
  by_cases h1 : c < 0x80
  · refine ⟨[byte c], by simp only [h1, if_true], ?_⟩
    rw [List.singleton_append, from_bytes_enc1 c rest h1]
  · by_cases h2 : c < 0x800
    · refine ⟨[byte (0xC0 + c / 64), byte (0x80 + c % 64)],
        by simp only [h1, h2, if_true, if_false], ?_⟩
      rw [List.cons_append, List.singleton_append,
        from_bytes_enc2 (0xC0 + c / 64) (0x80 + c % 64) rest (by omega) (by omega) (by omega)
          (by omega)]
      have a : (0xC0 + c / 64 - 0xC0) * 64 + (0x80 + c % 64 - 0x80) = c := by omega
      rw [a]
    · by_cases h3 : c < 0x10000
      · refine ⟨[byte (0xE0 + c / 4096), byte (0x80 + c / 64 % 64), byte (0x80 + c % 64)],
          by simp only [h1, h2, h3, if_true, if_false], ?_⟩
        rw [List.cons_append, List.cons_append, List.singleton_append,
          from_bytes_enc3 (0xE0 + c / 4096) (0x80 + c / 64 % 64) (0x80 + c % 64) rest
            (by omega) (by omega) (by omega) (by omega) (by omega) (by omega) (by omega)]
        have a : (0xE0 + c / 4096 - 0xE0) * 4096 + (0x80 + c / 64 % 64 - 0x80) * 64
            + (0x80 + c % 64 - 0x80) = c := by omega
        rw [a]
      · have h4 : c ≤ 0x10FFFF := by omega
        refine ⟨[byte (0xF0 + c / 262144), byte (0x80 + c / 4096 % 64),
          byte (0x80 + c / 64 % 64), byte (0x80 + c % 64)],
          by simp only [h1, h2, h3, h4, if_true, if_false], ?_⟩
        rw [List.cons_append, List.cons_append, List.cons_append, List.singleton_append,
          from_bytes_enc4 (0xF0 + c / 262144) (0x80 + c / 4096 % 64) (0x80 + c / 64 % 64)
            (0x80 + c % 64) rest (by omega) (by omega) (by omega) (by omega) (by omega)
            (by omega) (by omega) (by omega) (by omega) (by omega)]
        have a : (0xF0 + c / 262144 - 0xF0) * 262144 + (0x80 + c / 4096 % 64 - 0x80) * 4096
            + (0x80 + c / 64 % 64 - 0x80) * 64 + (0x80 + c % 64 - 0x80) = c := by omega
        rw [a]

theorem consOk_eq_ok {c : Nat} {r : Except String (List Nat)} {cps : List Nat}
    (h : consOk c r = .ok cps) : ∃ cs, r = .ok cs ∧ cps = c :: cs := by
  cases r with
  | error e => simp only [consOk] at h; cases h
  | ok cs =>
    simp only [consOk, Except.ok.injEq] at h
    exact ⟨cs, rfl, h.symm⟩

theorem isContinuation_bounds {b : Byte} (h : isContinuation b = true) :
    0x80 ≤ b.val ∧ b.val < 0xC0 := by
  simpa only [isContinuation, Bool.and_eq_true, decide_eq_true_eq] using h

theorem isCodePoint_iff (c : Nat) : isCodePoint c = true ↔ c ≤ 0x10FFFF := by
  simp only [isCodePoint, decide_eq_true_eq]

theorem from_bytes_codePoint_aux (n : Nat) : ∀ (bs : List Byte), bs.length ≤ n →
    ∀ cps, from_bytes bs = .ok cps → ∀ c ∈ cps, isCodePoint c = true := by
  induction n with
  | zero =>
    intro bs hl cps h c hc
    have hnil : bs = [] := List.eq_nil_of_length_eq_zero (Nat.le_zero.mp hl)
    subst hnil
    rw [from_bytes_nil, Except.ok.injEq] at h
    subst h
    cases hc
  | succ n ih =>
    intro bs hl cps h c hc
    cases bs with
    | nil =>
      rw [from_bytes_nil, Except.ok.injEq] at h
      subst h
      cases hc
    | cons c1 rest =>
      rw [from_bytes_cons] at h
      have hc1 := c1.isLt
      simp only [List.length_cons] at hl
      split at h
      · obtain ⟨cs, hcs, rfl⟩ := consOk_eq_ok h
        rcases List.mem_cons.mp hc with hEq | hmem
        · rw [hEq, isCodePoint_iff]; omega
        · exact ih rest (by omega) cs hcs c hmem
      · split at h
        · cases h
        · split at h
          · split at h
            · rename_i c2 rest2
              split at h
              · rename_i k2
                have b2 := isContinuation_bounds k2
                obtain ⟨cs, hcs, rfl⟩ := consOk_eq_ok h
                rcases List.mem_cons.mp hc with hEq | hmem
                · rw [hEq, isCodePoint_iff]; omega
                · exact ih rest2 (by simp only [List.length_cons] at hl; omega) cs hcs c hmem
              · cases h
            · rw [Except.ok.injEq] at h
              subst h
              cases hc
          · split at h
            · split at h
              · rename_i c2 c3 rest3
                split at h
                · rename_i k
                  simp only [Bool.and_eq_true, Bool.not_eq_true', Bool.and_eq_false_imp,
                    decide_eq_true_eq, decide_eq_false_iff_not] at k
                  obtain ⟨⟨k2, k3⟩, o1⟩ := k
                  have b2 := isContinuation_bounds k2
                  have b3 := isContinuation_bounds k3
                  obtain ⟨cs, hcs, rfl⟩ := consOk_eq_ok h
                  rcases List.mem_cons.mp hc with hEq | hmem
                  · rw [hEq, isCodePoint_iff]; omega
                  · exact ih rest3 (by simp only [List.length_cons] at hl; omega) cs hcs c hmem
                · cases h
              · rw [Except.ok.injEq] at h
                subst h
                cases hc
            · split at h
              · split at h
                · rename_i c2 c3 c4 rest4
                  split at h
                  · rename_i k
                    simp only [Bool.and_eq_true, Bool.not_eq_true', Bool.and_eq_false_imp,
                      decide_eq_true_eq, decide_eq_false_iff_not] at k
                    obtain ⟨⟨⟨⟨k2, k3⟩, k4⟩, o1⟩, o2⟩ := k
                    have b2 := isContinuation_bounds k2
                    have b3 := isContinuation_bounds k3
                    have b4 := isContinuation_bounds k4
                    obtain ⟨cs, hcs, rfl⟩ := consOk_eq_ok h
                    rcases List.mem_cons.mp hc with hEq | hmem
                    · rw [hEq, isCodePoint_iff]; omega
                    · exact ih rest4 (by simp only [List.length_cons] at hl; omega) cs hcs c hmem
                  · cases h
                · rw [Except.ok.injEq] at h
                  subst h
                  cases hc
              · cases h

theorem from_bytes_codePoint {bs : List Byte} {cps : List Nat} (h : from_bytes bs = .ok cps) :
    ∀ c ∈ cps, isCodePoint c = true :=
  from_bytes_codePoint_aux bs.length bs (Nat.le_refl _) cps h

theorem consOk_eq_error {c : Nat} {r : Except String (List Nat)} {e : String}
    (h : consOk c r = .error e) : r = .error e := by
  cases r with
  | error e2 => simp only [consOk, Except.error.injEq] at h; rw [h]
  | ok cs => simp only [consOk] at h; cases h

theorem from_bytes_error_aux (n : Nat) : ∀ (bs : List Byte), bs.length ≤ n →
    ∀ e, from_bytes bs = .error e → e = fromBytesError := by
  induction n with
  | zero =>
    intro bs hl e h
    have hnil : bs = [] := List.eq_nil_of_length_eq_zero (Nat.le_zero.mp hl)
    subst hnil
    rw [from_bytes_nil] at h
    cases h
  | succ n ih =>
    intro bs hl e h
    cases bs with
    | nil => rw [from_bytes_nil] at h; cases h
    | cons c1 rest =>
      rw [from_bytes_cons] at h
      simp only [List.length_cons] at hl
      split at h
      · exact ih rest (by omega) e (consOk_eq_error h)
      · split at h
        · rw [Except.error.injEq] at h; exact h.symm
        · split at h
          · split at h
            · rename_i c2 rest2
              split at h
              · exact ih rest2 (by simp only [List.length_cons] at hl; omega) e
                  (consOk_eq_error h)
              · rw [Except.error.injEq] at h; exact h.symm
            · cases h
          · split at h
            · split at h
              · rename_i c2 c3 rest3
                split at h
                · exact ih rest3 (by simp only [List.length_cons] at hl; omega) e
                    (consOk_eq_error h)
                · rw [Except.error.injEq] at h; exact h.symm
              · cases h
            · split at h
              · split at h
                · rename_i c2 c3 c4 rest4
                  split at h
                  · exact ih rest4 (by simp only [List.length_cons] at hl; omega) e
                      (consOk_eq_error h)
                  · rw [Except.error.injEq] at h; exact h.symm
                · cases h
              · rw [Except.error.injEq] at h; exact h.symm

/-- Every exception of `from_bytes` carries the converter's message. -/
theorem from_bytes_error_message {bs : List Byte} {e : String}
    (h : from_bytes bs = .error e) : e = fromBytesError :=
  from_bytes_error_aux bs.length bs (Nat.le_refl _) e h

/-- The converter on ill-formed input: a text cut inside a multi-byte sequence (the lead
byte announces more bytes than are left) converts to the code points before the cut, a
surrogate converts and converts back, and a byte that cannot continue or start a sequence
is a conversion error. -/
theorem from_bytes_ill_formed :
    from_bytes [byte 0x61, byte 0x62, byte 0x63, byte 0xD8] = .ok [0x61, 0x62, 0x63]
      ∧ from_bytes [byte 0xE2, byte 0x82] = .ok []
      ∧ from_bytes [byte 0xE2, byte 0x41] = .ok []
      ∧ from_bytes [byte 0xF0, byte 0x9F, byte 0x98] = .ok []
      ∧ from_bytes [byte 0x61, byte 0xED, byte 0xA0, byte 0x80, byte 0x62]
          = .ok [0x61, 0xD800, 0x62]
      ∧ to_bytes [0x61, 0xD800, 0x62]
          = .ok [byte 0x61, byte 0xED, byte 0xA0, byte 0x80, byte 0x62]
      ∧ to_bytes [0x110000] = .error toBytesError
      ∧ from_bytes [byte 0x61, byte 0xFF] = .error fromBytesError
      ∧ from_bytes [byte 0xE2, byte 0x41, byte 0x42] = .error fromBytesError
      ∧ from_bytes [byte 0x61, byte 0xE2, byte 0x82, byte 0x62, byte 0x63]
          = .error fromBytesError
      ∧ from_bytes [byte 0xC0, byte 0x80] = .error fromBytesError
      ∧ from_bytes [byte 0xE0, byte 0x80, byte 0x80] = .error fromBytesError
      ∧ from_bytes [byte 0xF4, byte 0x90, byte 0x80, byte 0x80] = .error fromBytesError := by
  decide

theorem to_bytes_from_bytes (cps : List Nat) (h : ∀ c ∈ cps, isCodePoint c = true) :
    ∃ out, to_bytes cps = .ok out ∧ from_bytes out = .ok cps := by
  induction cps with
  | nil => exact ⟨[], rfl, rfl⟩
  | cons c cs ih =>
    obtain ⟨out, hout, hdec⟩ := ih (fun x hx => h x (List.mem_cons_of_mem _ hx))
    obtain ⟨bs, hbs, hrt⟩ := from_bytes_encode c (h c (List.mem_cons_self _ _)) out
    refine ⟨bs ++ out, ?_, ?_⟩
    · simp only [to_bytes, hbs, hout]
    · rw [hrt, hdec]; rfl

/-! ## The normalisation loop -/

theorem normalizeStep_append (ct : CType) (normalized : List Nat) (c : Nat) :
    normalizeStep ct normalized c = normalized ++ normalizeStep ct [] c := by
  unfold normalizeStep
  split
  · simp
  · split
    · simp
    · split <;> simp

theorem foldl_normalizeStep (ct : CType) (wide_text : List Nat) (normalized : List Nat) :
    wide_text.foldl (normalizeStep ct) normalized
      = normalized ++ wide_text.foldl (normalizeStep ct) [] := by
  induction wide_text generalizing normalized with
  | nil => simp
  | cons c cs ih =>
    simp only [List.foldl_cons]
    rw [ih (normalizeStep ct normalized c), ih (normalizeStep ct [] c),
      normalizeStep_append ct normalized c, List.append_assoc]

theorem normalizeWide_nil (ct : CType) : normalizeWide ct [] = [] := rfl

theorem normalizeWide_cons (ct : CType) (c : Nat) (cs : List Nat) :
    normalizeWide ct (c :: cs) = normalizeStep ct [] c ++ normalizeWide ct cs := by
  simp only [normalizeWide, List.foldl_cons]
  exact foldl_normalizeStep ct cs _

theorem normalizeWide_append (ct : CType) (a b : List Nat) :
    normalizeWide ct (a ++ b) = normalizeWide ct a ++ normalizeWide ct b := by
  simp only [normalizeWide, List.foldl_append]
  exact foldl_normalizeStep ct b _

theorem foldLetter_eq (c : Nat) :
    foldLetter c = if c = 0x0640 then none else some (specFold c) := by
  simp only [foldLetter, specFold, List.mem_cons, List.mem_singleton, List.not_mem_nil,
    or_false]
  split_ifs <;> first | rfl | omega

theorem specFold_eq_tatweel (c : Nat) : specFold c = 0x0640 ↔ c = 0x0640 := by
  simp only [specFold, List.mem_cons, List.mem_singleton, List.not_mem_nil, or_false]
  split_ifs <;> omega

theorem normalizeSpec_singleton (ct : CType) (c : Nat) :
    normalizeSpec ct [c] =
      if isDiacritic c = true then []
      else if specFold c = 0x0640 then []
      else if (ct.iswpunct (specFold c) || ct.iswdigit (specFold c)) = true then []
      else [specFold c] := by
  unfold normalizeSpec
  by_cases h1 : isDiacritic c = true
  · simp [h1]
  · by_cases h2 : specFold c = 0x0640
    · simp [h1, h2]
    · by_cases h3 : (ct.iswpunct (specFold c) || ct.iswdigit (specFold c)) = true
      · simp only [Bool.or_eq_true] at h3
        rcases h3 with h | h <;> simp [h1, h2, h]
      · simp only [Bool.or_eq_true, not_or, Bool.not_eq_true] at h3
        simp [h1, h2, h3]

/-- What one iteration appends is what the specification's rules leave of that code point. -/
theorem normalizeStep_eq_spec (ct : CType) (c : Nat) :
    normalizeStep ct [] c = normalizeSpec ct [c] := by
  rw [normalizeSpec_singleton, normalizeStep, foldLetter_eq]
  by_cases h1 : 0x064B ≤ c ∧ c ≤ 0x0652
  · have hd : isDiacritic c = true := by
      simp only [isDiacritic, Bool.and_eq_true, decide_eq_true_eq]; exact h1
    simp only [h1, hd, and_self, if_true]
  · have hd : ¬ (isDiacritic c = true) := by
      simp only [isDiacritic, Bool.and_eq_true, decide_eq_true_eq]; exact h1
    rw [if_neg h1, if_neg hd]
    by_cases h2 : c = 0x0640
    · rw [if_pos h2, if_pos ((specFold_eq_tatweel c).mpr h2)]
    · rw [if_neg h2, if_neg (fun h => h2 ((specFold_eq_tatweel c).mp h))]
      simp only [List.nil_append]

theorem normalizeSpec_cons (ct : CType) (c : Nat) (cs : List Nat) :
    normalizeSpec ct (c :: cs) = normalizeSpec ct [c] ++ normalizeSpec ct cs := by
  have h : c :: cs = [c] ++ cs := rfl
  rw [h]
  simp only [normalizeSpec, List.filter_append, List.map_append]

/-- The loop computes the specification's normal form. -/
theorem normalizeWide_eq_spec (ct : CType) (wide_text : List Nat) :
    normalizeWide ct wide_text = normalizeSpec ct wide_text := by
  induction wide_text with
  | nil => rfl
  | cons c cs ih => rw [normalizeWide_cons, normalizeSpec_cons, ih, normalizeStep_eq_spec]

theorem specFold_idem (c : Nat) : specFold (specFold c) = specFold c := by
  simp only [specFold, List.mem_cons, List.mem_singleton, List.not_mem_nil, or_false]
  split_ifs <;> first | rfl | omega

theorem isDiacritic_specFold (c : Nat) (h : isDiacritic c = false) :
    isDiacritic (specFold c) = false := by
  simp only [isDiacritic, Bool.and_eq_false_imp, decide_eq_true_eq, decide_eq_false_iff_not,
    specFold, List.mem_cons, List.mem_singleton, List.not_mem_nil, or_false] at h ⊢
  split_ifs <;> omega

theorem normalizeSpec_singleton_cases (ct : CType) (c : Nat) :
    normalizeSpec ct [c] = [] ∨
      (normalizeSpec ct [c] = [specFold c] ∧ isNormal ct (specFold c)) := by
  rw [normalizeSpec_singleton]
  by_cases h1 : isDiacritic c = true
  · left; rw [if_pos h1]
  · by_cases h2 : specFold c = 0x0640
    · left; rw [if_neg h1, if_pos h2]
    · by_cases h3 : (ct.iswpunct (specFold c) || ct.iswdigit (specFold c)) = true
      · left; rw [if_neg h1, if_neg h2, if_pos h3]
      · right
        rw [if_neg h1, if_neg h2, if_neg h3]
        simp only [Bool.or_eq_true, not_or, Bool.not_eq_true] at h3
        simp only [Bool.not_eq_true] at h1
        exact ⟨rfl, isDiacritic_specFold c h1, h2, h3.1, h3.2, specFold_idem c⟩

theorem normalizeSpec_of_isNormal (ct : CType) (c : Nat) (h : isNormal ct c) :
    normalizeSpec ct [c] = [c] := by
  obtain ⟨h1, h2, h3, h4, h5⟩ := h
  rw [normalizeSpec_singleton, h5]
  simp [h1, h2, h3, h4]

theorem normalizeSpec_isNormal (ct : CType) (cps : List Nat) :
    ∀ c ∈ normalizeSpec ct cps, isNormal ct c := by
  induction cps with
  | nil => intro c hc; cases hc
  | cons x xs ih =>
    intro c hc
    rw [normalizeSpec_cons, List.mem_append] at hc
    rcases hc with hc | hc
    · rcases normalizeSpec_singleton_cases ct x with h | ⟨h, hn⟩
      · rw [h] at hc; cases hc
      · rw [h, List.mem_singleton] at hc
        rw [hc]; exact hn
    · exact ih c hc

theorem normalizeSpec_fixed (ct : CType) (cps : List Nat) (h : ∀ c ∈ cps, isNormal ct c) :
    normalizeSpec ct cps = cps := by
  induction cps with
  | nil => rfl
  | cons x xs ih =>
    rw [normalizeSpec_cons, normalizeSpec_of_isNormal ct x (h x (List.mem_cons_self _ _)),
      ih (fun c hc => h c (List.mem_cons_of_mem _ hc))]
    rfl

theorem normalizeWide_idem (ct : CType) (wide_text : List Nat) :
    normalizeWide ct (normalizeWide ct wide_text) = normalizeWide ct wide_text := by
  rw [normalizeWide_eq_spec, normalizeWide_eq_spec]
  exact normalizeSpec_fixed ct _ (normalizeSpec_isNormal ct wide_text)

theorem isCodePoint_specFold (c : Nat) (h : isCodePoint c = true) :
    isCodePoint (specFold c) = true := by
  rw [isCodePoint_iff] at h ⊢
  simp only [specFold, List.mem_cons, List.mem_singleton, List.not_mem_nil, or_false]
  split_ifs <;> omega

theorem normalizeSpec_mem (ct : CType) (cps : List Nat) :
    ∀ c ∈ normalizeSpec ct cps, ∃ x ∈ cps, c = specFold x := by
  induction cps with
  | nil => intro c hc; cases hc
  | cons x xs ih =>
    intro c hc
    rw [normalizeSpec_cons, List.mem_append] at hc
    rcases hc with hc | hc
    · rcases normalizeSpec_singleton_cases ct x with h | ⟨h, _⟩
      · rw [h] at hc; cases hc
      · rw [h, List.mem_singleton] at hc
        exact ⟨x, List.mem_cons_self _ _, hc⟩
    · obtain ⟨y, hy, e⟩ := ih c hc
      exact ⟨y, List.mem_cons_of_mem _ hy, e⟩

theorem normalizeWide_codePoint (ct : CType) (cps : List Nat)
    (h : ∀ c ∈ cps, isCodePoint c = true) :
    ∀ c ∈ normalizeWide ct cps, isCodePoint c = true := by
  intro c hc
  rw [normalizeWide_eq_spec] at hc
  obtain ⟨x, hx, e⟩ := normalizeSpec_mem ct cps c hc
  rw [e]
  exact isCodePoint_specFold x (h x hx)

/-- On a well-formed text `normalizeArabicText` returns the UTF-8 encoding of the loop's
output, and that encoding decodes back to it. -/
theorem normalizeArabicText_ok (ct : CType) (utf8_text : List Byte) (cps : List Nat)
    (h : from_bytes utf8_text = .ok cps) :
    ∃ out, normalizeArabicText ct utf8_text = .ok out
      ∧ to_bytes (normalizeWide ct cps) = .ok out
      ∧ from_bytes out = .ok (normalizeWide ct cps) := by
  obtain ⟨out, h1, h2⟩ :=
    to_bytes_from_bytes (normalizeWide ct cps)
      (normalizeWide_codePoint ct cps (from_bytes_codePoint h))
  refine ⟨out, ?_, h1, h2⟩
  simp only [normalizeArabicText, h, h1]

/-! ## The rolling hash -/

theorem polynomialHash_eq (m : Nat) (text : List Byte) (i : Nat) :
    polynomialHash m text i = windowSum m text i % 1000000007 := rfl

theorem windowSum_succ (m : Nat) (text : List Byte) (i : Nat) :
    windowSum (m + 1) text i = windowSum m text i * 256 + (text.getD (i + m) 0).val := by
  unfold windowSum
  rw [Finset.sum_range_succ, Finset.sum_mul]
  congr 1
  · apply Finset.sum_congr rfl
    intro j hj
    have hj' : j < m := Finset.mem_range.mp hj
    have e : m + 1 - 1 - j = (m - 1 - j) + 1 := by omega
    rw [e, pow_succ, mul_assoc]
  · have e : m + 1 - 1 - m = 0 := by omega
    rw [e, pow_zero, mul_one]

theorem hashStep_eq (text : List Byte) (i m : Nat) (h : i + m < text.length) :
    hashStep text i (polynomialHash m text i) m = some (polynomialHash (m + 1) text i) := by
  have hget : text[i + m]? = some (text.getD (i + m) 0) := by
    rw [List.getD_eq_getElem?_getD, List.getElem?_eq_getElem h]; rfl
  have hb : (text.getD (i + m) 0).val < 256 := (text.getD (i + m) 0).isLt
  simp only [hashStep, hget, polynomialHash_eq, windowSum_succ, BASE, MOD, Option.some.injEq]
  have hr : windowSum m text i % 1000000007 < 1000000007 := Nat.mod_lt _ (by decide)
  have hlt : windowSum m text i % 1000000007 * 256 + (text.getD (i + m) 0).val < 2 ^ 64 := by
    omega
  rw [Nat.mod_eq_of_lt hlt]
  exact Nat.ModEq.add_right _ (Nat.ModEq.mul_right _ (Nat.mod_modEq _ _))

theorem foldlM_hash (text : List Byte) (i m : Nat) (h : i + m ≤ text.length) :
    (List.range m).foldlM (hashStep text i) 0 = some (polynomialHash m text i) := by
  induction m with
  | zero => rfl
  | succ m ih =>
    rw [List.range_succ, List.foldlM_append, ih (by omega)]
    simp only [Option.bind_eq_bind, Option.some_bind, List.foldlM_cons, List.foldlM_nil]
    rw [hashStep_eq text i m (by omega)]
    rfl

theorem windowHash_eq (d : PlagiarismDetector) (text : List Byte) (i : Nat)
    (h : i + d.ngram_size ≤ text.length) :
    windowHash d text i = some (polynomialHash d.ngram_size text i) :=
  foldlM_hash text i d.ngram_size h

theorem foldlM_insert (d : PlagiarismDetector) (text : List Byte) (g : Nat → Nat)
    (l : List Nat) (hl : ∀ i ∈ l, windowHash d text i = some (g i)) (s : Finset Nat) :
    l.foldlM (fun ngrams i =>
        match windowHash d text i with
        | none => none
        | some hash => some (insert hash ngrams)) s
      = some (s ∪ (l.map g).toFinset) := by
  induction l generalizing s with
  | nil => simp
  | cons i is ih =>
    rw [List.foldlM_cons, hl i (List.mem_cons_self _ _)]
    simp only [Option.bind_eq_bind, Option.some_bind]
    rw [ih (fun j hj => hl j (List.mem_cons_of_mem _ hj))]
    congr 1
    ext x
    simp only [List.map_cons, List.toFinset_cons, Finset.mem_union, Finset.mem_insert]
    tauto

theorem shingleSet_of_le (k : Nat) (text : List Byte) (h : k ≤ text.length) :
    shingleSet k text
      = ((List.range (text.length - k + 1)).map (polynomialHash k text)).toFinset := by
  ext x
  simp only [shingleSet, Finset.mem_image, Finset.mem_filter, Finset.mem_range,
    List.mem_toFinset, List.mem_map, List.mem_range]
  constructor
  · rintro ⟨i, ⟨_, hi⟩, rfl⟩
    exact ⟨i, by omega, rfl⟩
  · rintro ⟨i, hi, rfl⟩
    exact ⟨i, ⟨by omega, by omega⟩, rfl⟩

theorem shingleSet_of_lt (k : Nat) (text : List Byte) (h : text.length < k) :
    shingleSet k text = ∅ := by
  ext x
  simp only [shingleSet, Finset.mem_image, Finset.mem_filter, Finset.mem_range,
    Finset.not_mem_empty, iff_false]
  rintro ⟨i, ⟨_, hi⟩, _⟩
  omega

/-- `generateNgrams` never reads outside the text and adds exactly the specification's
fingerprint to `ngrams`. -/
theorem generateNgrams_eq (d : PlagiarismDetector) (text : List Byte) (ngrams : Finset Nat) :
    generateNgrams d text ngrams = some (ngrams ∪ shingleSet d.ngram_size text) := by
  unfold generateNgrams
  by_cases h : text.length < d.ngram_size
  · rw [if_pos h, shingleSet_of_lt _ _ h, Finset.union_empty]
  · rw [if_neg h, shingleSet_of_le _ _ (by omega)]
    exact foldlM_insert d text (polynomialHash d.ngram_size text) _
      (fun i hi => windowHash_eq d text i (by have := List.mem_range.mp hi; omega)) ngrams

/-! ## The Jaccard ratio -/

theorem filter_mem_eq_inter (A B : Finset Nat) :
    A.filter (fun ngram => ngram ∈ B) = A ∩ B := by
  ext x
  simp only [Finset.mem_filter, Finset.mem_inter]

theorem total_unique_eq (A B : Finset Nat) :
    A.card + B.card - (A ∩ B).card = (A ∪ B).card := by
  have h := Finset.card_union_add_card_inter A B
  omega

theorem calculateSimilarity_eq (d : PlagiarismDetector) (h1 : d.ngrams1 ≠ ∅)
    (h2 : d.ngrams2 ≠ ∅) :
    calculateSimilarity d
      = ((d.ngrams1 ∩ d.ngrams2).card : ℚ) / ((d.ngrams1 ∪ d.ngrams2).card : ℚ) := by
  unfold calculateSimilarity
  rw [if_neg (fun h => h1 h.1), if_neg (fun h => h.elim h1 h2)]
  simp only [filter_mem_eq_inter, total_unique_eq]

theorem calculateSimilarity_self (k : Nat) (A : Finset Nat) :
    calculateSimilarity ⟨k, A, A⟩ = 1 := by
  by_cases h : A = ∅
  · simp [calculateSimilarity, h]
  · rw [calculateSimilarity_eq _ h h]
    simp only [Finset.inter_self, Finset.union_self]
    have hc : (A.card : ℚ) ≠ 0 := by
      exact_mod_cast Finset.card_ne_zero.mpr (Finset.nonempty_iff_ne_empty.mpr h)
    exact div_self hc

theorem calculateSimilarity_comm (k k' : Nat) (A B : Finset Nat) :
    calculateSimilarity ⟨k, A, B⟩ = calculateSimilarity ⟨k', B, A⟩ := by
  by_cases hA : A = ∅
  · by_cases hB : B = ∅
    · simp [calculateSimilarity, hA, hB]
    · simp [calculateSimilarity, hA, hB]
  · by_cases hB : B = ∅
    · simp [calculateSimilarity, hA, hB]
    · rw [calculateSimilarity_eq _ hA hB, calculateSimilarity_eq _ hB hA]
      simp only [Finset.inter_comm, Finset.union_comm]

/-! ## `compareFiles`: the value returned -/

/-- The value `compareFiles` returns, case by case. -/
theorem compareFilesResult_eq (ct : CType) (fs : FileSystem) (d : PlagiarismDetector)
    (file1 file2 : String) :
    compareFilesResult ct fs d file1 file2 =
      match fs file1, fs file2 with
      | some text1, some text2 =>
        if (text1.isEmpty || text2.isEmpty) = true then some (-1)
        else
          match normalizeArabicText ct text1, normalizeArabicText ct text2 with
          | .ok norm1, .ok norm2 =>
            some (calculateSimilarity
              ⟨d.ngram_size, shingleSet d.ngram_size norm1,
                shingleSet d.ngram_size norm2⟩ * 100)
          | _, _ => some (-1)
      | _, _ => some (-1) := by
  unfold compareFilesResult compareFiles compareFilesBody readFileAsUTF8
  cases h1 : fs file1 with
  | none => rfl
  | some text1 =>
    cases h2 : fs file2 with
    | none => rfl
    | some text2 =>
      by_cases he : (text1.isEmpty || text2.isEmpty) = true
      · simp only [he, if_true, Option.map_some']
      · simp only [he, Bool.false_eq_true, if_false]
        cases hn1 : normalizeArabicText ct text1 with
        | error e => rfl
        | ok norm1 =>
          cases hn2 : normalizeArabicText ct text2 with
          | error e => rfl
          | ok norm2 =>
            simp only [generateNgrams_eq, Finset.empty_union, Option.map_some', Bool.false_eq_true,
              if_false]

theorem compareFilesResult_ok (ct : CType) (fs : FileSystem) (d : PlagiarismDetector)
    (file1 file2 : String) (text1 text2 norm1 norm2 : List Byte)
    (h1 : fs file1 = some text1) (h2 : fs file2 = some text2)
    (e1 : text1 ≠ []) (e2 : text2 ≠ [])
    (n1 : normalizeArabicText ct text1 = .ok norm1)
    (n2 : normalizeArabicText ct text2 = .ok norm2) :
    compareFilesResult ct fs d file1 file2 =
      some (calculateSimilarity
        ⟨d.ngram_size, shingleSet d.ngram_size norm1,
          shingleSet d.ngram_size norm2⟩ * 100) := by
  rw [compareFilesResult_eq, h1, h2]
  have he : ¬ ((text1.isEmpty || text2.isEmpty) = true) := by
    simp only [Bool.or_eq_true, List.isEmpty_iff, not_or]
    exact ⟨e1, e2⟩
  simp only [he, Bool.false_eq_true, if_false, n1, n2]

theorem compareFilesResult_same (ct : CType) (fs : FileSystem) (d : PlagiarismDetector)
    (file1 file2 : String) (text1 text2 norm : List Byte)
    (h1 : fs file1 = some text1) (h2 : fs file2 = some text2)
    (e1 : text1 ≠ []) (e2 : text2 ≠ [])
    (n1 : normalizeArabicText ct text1 = .ok norm)
    (n2 : normalizeArabicText ct text2 = .ok norm) :
    compareFilesResult ct fs d file1 file2 = some 100 := by
  rw [compareFilesResult_ok ct fs d file1 file2 text1 text2 norm norm h1 h2 e1 e2 n1 n2,
    calculateSimilarity_self]
  norm_num

theorem compareFilesResult_comm (ct : CType) (fs : FileSystem) (k : Nat)
    (A1 B1 A2 B2 : Finset Nat) (file1 file2 : String) :
    compareFilesResult ct fs ⟨k, A1, B1⟩ file1 file2
      = compareFilesResult ct fs ⟨k, A2, B2⟩ file2 file1 := by
  rw [compareFilesResult_eq, compareFilesResult_eq]
  cases h1 : fs file1 with
  | none => cases h2 : fs file2 <;> rfl
  | some text1 =>
    cases h2 : fs file2 with
    | none => rfl
    | some text2 =>
      simp only [Bool.or_comm text2.isEmpty text1.isEmpty]
      by_cases he : (text1.isEmpty || text2.isEmpty) = true
      · simp only [he, if_true]
      · simp only [he, Bool.false_eq_true, if_false]
        cases hn1 : normalizeArabicText ct text1 with
        | error e => cases hn2 : normalizeArabicText ct text2 <;> rfl
        | ok norm1 =>
          cases hn2 : normalizeArabicText ct text2 with
          | error e => rfl
          | ok norm2 =>
            simp only []
            rw [calculateSimilarity_comm k k]

theorem compareFilesResult_empty (ct : CType) (fs : FileSystem) (d : PlagiarismDetector)
    (file1 file2 : String) (h : fs file1 = some [] ∨ fs file2 = some []) :
    compareFilesResult ct fs d file1 file2 = some (-1) := by
  rw [compareFilesResult_eq]
  rcases h with h | h
  · rw [h]
    cases h2 : fs file2 with
    | none => rfl
    | some text2 => simp only [List.isEmpty_nil, Bool.true_or, if_true]
  · rw [h]
    cases h1 : fs file1 with
    | none => rfl
    | some text1 => simp only [List.isEmpty_nil, Bool.or_true, if_true]

/-! ## Diacritic insertion -/

theorem normalizeStep_diacritic (ct : CType) (m : Nat) (h : isDiacritic m = true) :
    normalizeStep ct [] m = [] := by
  rw [normalizeStep_eq_spec, normalizeSpec_singleton, if_pos h]

theorem normalizeWide_insertion (ct : CType) (y : List Nat) :
    ∀ x, isDiacriticInsertion x y = true → normalizeWide ct y = normalizeWide ct x := by
  induction y with
  | nil =>
    intro x h
    cases x with
    | nil => rfl
    | cons c xs => simp [isDiacriticInsertion] at h
  | cons m ys ih =>
    intro x h
    cases x with
    | nil =>
      simp only [isDiacriticInsertion, Bool.and_eq_true] at h
      rw [normalizeWide_cons, normalizeStep_diacritic ct m h.1, ih [] h.2]
      rfl
    | cons c xs =>
      simp only [isDiacriticInsertion, Bool.or_eq_true, Bool.and_eq_true,
        decide_eq_true_eq] at h
      rcases h with ⟨hc, hrec⟩ | ⟨hm, hrec⟩
      · rw [normalizeWide_cons, normalizeWide_cons, ih xs hrec, hc]
      · rw [normalizeWide_cons, normalizeStep_diacritic ct m hm, ih (c :: xs) hrec]
        rfl

theorem isDiacriticInsertion_ne_nil (x y : List Nat) (h : isDiacriticInsertion x y = true)
    (hx : x ≠ []) : y ≠ [] := by
  intro hy
  subst hy
  cases x with
  | nil => exact hx rfl
  | cons c xs => simp [isDiacriticInsertion] at h

theorem to_bytes_nil : to_bytes [] = .ok [] := rfl

theorem encodeCodePoint_ne_nil {c : Nat} {bs : List Byte} (h : encodeCodePoint c = some bs) :
    bs ≠ [] := by
  unfold encodeCodePoint at h
  split_ifs at h <;> cases h <;> exact List.cons_ne_nil _ _

theorem to_bytes_cons_ne_nil {c : Nat} {cs : List Nat} {out : List Byte}
    (h : to_bytes (c :: cs) = .ok out) : out ≠ [] := by
  unfold to_bytes at h
  cases he : encodeCodePoint c with
  | none => rw [he] at h; cases h
  | some bs =>
    rw [he] at h
    cases ht : to_bytes cs with
    | error e => rw [ht] at h; cases h
    | ok rest =>
      rw [ht] at h
      simp only [Except.ok.injEq] at h
      subst h
      intro hnil
      exact encodeCodePoint_ne_nil he (List.append_eq_nil.mp hnil).1

/-- Diacritics inserted into the code points of a text leave the comparison at 100, whenever
both files are non-empty. -/
theorem compareFilesResult_insertion (ct : CType) (fs : FileSystem)
    (d : PlagiarismDetector) (fileX fileY : String) (x y : List Byte) (cpsX cpsY : List Nat)
    (hx : fs fileX = some x) (hy : fs fileY = some y) (hne : x ≠ []) (hney : y ≠ [])
    (hdecX : from_bytes x = .ok cpsX) (hdecY : from_bytes y = .ok cpsY)
    (hins : isDiacriticInsertion cpsX cpsY = true) :
    (∃ out, normalizeArabicText ct x = .ok out ∧ normalizeArabicText ct y = .ok out)
      ∧ compareFilesResult ct fs d fileX fileY = some 100 := by
  obtain ⟨outX, hX, tX, _⟩ := normalizeArabicText_ok ct x cpsX hdecX
  obtain ⟨outY, hY, tY, _⟩ := normalizeArabicText_ok ct y cpsY hdecY
  have hsame : normalizeWide ct cpsY = normalizeWide ct cpsX :=
    normalizeWide_insertion ct cpsY cpsX hins
  rw [hsame, tX, Except.ok.injEq] at tY
  subst tY
  exact ⟨⟨outX, hX, hY⟩,
    compareFilesResult_same ct fs d fileX fileY x y outX hx hy hne hney hX hY⟩

theorem compareFilesResult_isSome (ct : CType) (fs : FileSystem) (d : PlagiarismDetector)
    (file1 file2 : String) : ∃ v, compareFilesResult ct fs d file1 file2 = some v := by
  rw [compareFilesResult_eq]
  cases fs file1 with
  | none => exact ⟨_, rfl⟩
  | some text1 =>
    cases fs file2 with
    | none => exact ⟨_, rfl⟩
    | some text2 =>
      by_cases he : (text1.isEmpty || text2.isEmpty) = true
      · exact ⟨-1, by simp only [he, if_true]⟩
      · simp only [he, Bool.false_eq_true, if_false]
        cases normalizeArabicText ct text1 with
        | error e => exact ⟨_, rfl⟩
        | ok norm1 =>
          cases normalizeArabicText ct text2 with
          | error e => exact ⟨_, rfl⟩
          | ok norm2 => exact ⟨_, rfl⟩

/-- The loop's output is the letter-folded image of a subsequence of its input. -/
theorem normalizeSpec_sublist (ct : CType) (cps : List Nat) :
    ∃ s, List.Sublist s cps ∧ normalizeSpec ct cps = s.map specFold := by
  induction cps with
  | nil => exact ⟨[], List.Sublist.slnil, rfl⟩
  | cons x xs ih =>
    obtain ⟨s, hs, e⟩ := ih
    rw [normalizeSpec_cons, e]
    rcases normalizeSpec_singleton_cases ct x with h | ⟨h, _⟩
    · exact ⟨s, List.Sublist.cons x hs, by rw [h]; rfl⟩
    · exact ⟨x :: s, List.Sublist.cons₂ x hs, by rw [h]; rfl⟩

theorem map_specFold_fixed (s : List Nat) (h : ∀ c ∈ s, specFold c = c) :
    s.map specFold = s := by
  induction s with
  | nil => rfl
  | cons x xs ih =>
    rw [List.map_cons, h x (List.mem_cons_self _ _),
      ih (fun c hc => h c (List.mem_cons_of_mem _ hc))]

theorem normalizeStep_eq_specRule (ct : CType) (hl : lettersAreLetters ct = true) (c : Nat) :
    normalizeStep ct [] c = (specRule ct c).toList := by
  simp only [lettersAreLetters, Bool.and_eq_true, Bool.not_eq_true', Bool.or_eq_false_iff]
    at hl
  obtain ⟨⟨⟨a1, a2⟩, ⟨y1, y2⟩⟩, ⟨e1, e2⟩⟩ := hl
  unfold normalizeStep specRule foldLetter
  by_cases h1 : 0x064B ≤ c ∧ c ≤ 0x0652
  · simp only [h1, and_self, if_true, Option.toList_none]
  · rw [if_neg h1, if_neg h1]
    by_cases h2 : c = 0x0622 ∨ c = 0x0623 ∨ c = 0x0625 ∨ c = 0x0671
    · simp [h2, a1, a2]
    · rw [if_neg h2, if_neg h2]
      by_cases h3 : c = 0x0649 ∨ c = 0x064A
      · simp [h3, y1, y2]
      · rw [if_neg h3, if_neg h3]
        by_cases h4 : c = 0x0629
        · simp [h4, e1, e2]
        · rw [if_neg h4, if_neg h4]
          by_cases h5 : c = 0x0640
          · simp [h5]
          · rw [if_neg h5, if_neg h5]
            by_cases h6 : (ct.iswpunct c || ct.iswdigit c) = true
            · simp only [h6, if_true, Option.toList_none]
            · simp only [h6, Bool.false_eq_true, if_false, List.nil_append,
                Option.toList_some]

theorem normalizeWide_eq_specRule (ct : CType) (hl : lettersAreLetters ct = true)
    (cps : List Nat) : normalizeWide ct cps = cps.filterMap (specRule ct) := by
  induction cps with
  | nil => rfl
  | cons c cs ih =>
    rw [normalizeWide_cons, ih, normalizeStep_eq_specRule ct hl c]
    cases h : specRule ct c with
    | none => simp only [Option.toList_none, List.nil_append, List.filterMap_cons, h]
    | some v => simp only [Option.toList_some, List.singleton_append, List.filterMap_cons, h]

/-! ## The claims -/

/-- C1: for every text that decodes to a code point sequence, `normalizeArabicText` produces
exactly the sequence the specification's rules give when applied to the code points in their
original order (drop U+064B..U+0652; fold U+0622, U+0623, U+0625, U+0671 to U+0627, U+0649 and
U+064A to U+064A, U+0629 to U+0647; drop U+0640; drop punctuation and digits; keep the rest):
the loop computes that sequence, and the returned string is its UTF-8 encoding, which decodes
back to it.  The rules are applied in the order given, the classification being asked about
the folded code point; read as alternatives that classify the input code point they give the
same sequence under every classification that calls no canonical letter punctuation or a
digit. -/
theorem normalizeArabicText_follows_rules (ct : CType) (utf8_text : List Byte)
    (cps : List Nat) (h : from_bytes utf8_text = .ok cps) :
    normalizeWide ct cps = normalizeSpec ct cps
      ∧ (∃ out, normalizeArabicText ct utf8_text = .ok out
        ∧ to_bytes (normalizeSpec ct cps) = .ok out
        ∧ from_bytes out = .ok (normalizeSpec ct cps))
      ∧ (lettersAreLetters ct = true → normalizeSpec ct cps = cps.filterMap (specRule ct)) := by
  obtain ⟨out, h1, h2, h3⟩ := normalizeArabicText_ok ct utf8_text cps h
  rw [normalizeWide_eq_spec] at h2 h3
  refine ⟨normalizeWide_eq_spec ct cps, ⟨out, h1, h2, h3⟩, ?_⟩
  intro hl
  rw [← normalizeWide_eq_spec, normalizeWide_eq_specRule ct hl]

/-- Witness for C1: the text "أَ,a" decodes to U+0623 U+064E U+002C U+0061. -/
theorem normalizeArabicText_follows_rules_witness :
    from_bytes decoratedText = .ok [0x0623, 0x064E, 0x2C, 0x61] ∧
      (normalizeWide cLocale [0x0623, 0x064E, 0x2C, 0x61]
          = normalizeSpec cLocale [0x0623, 0x064E, 0x2C, 0x61]
        ∧ (∃ out, normalizeArabicText cLocale decoratedText = .ok out
          ∧ to_bytes (normalizeSpec cLocale [0x0623, 0x064E, 0x2C, 0x61]) = .ok out
          ∧ from_bytes out = .ok (normalizeSpec cLocale [0x0623, 0x064E, 0x2C, 0x61]))
        ∧ (lettersAreLetters cLocale = true →
            normalizeSpec cLocale [0x0623, 0x064E, 0x2C, 0x61]
              = [0x0623, 0x064E, 0x2C, 0x61].filterMap (specRule cLocale))) :=
  ⟨by decide, normalizeArabicText_follows_rules cLocale decoratedText
    [0x0623, 0x064E, 0x2C, 0x61] (by decide)⟩

/-- C2: normalisation is idempotent: for every text `x` the converter decodes, every valid
UTF-8 text among them, and every fixed classification, `normalizeArabicText x` returns a text
`out`, and normalising `out` again returns `out`. -/
theorem normalizeArabicText_idempotent (ct : CType) (x : List Byte) (cps : List Nat)
    (h : from_bytes x = .ok cps) :
    ∃ out, normalizeArabicText ct x = .ok out ∧ normalizeArabicText ct out = .ok out := by
  obtain ⟨out, h1, h2, h3⟩ := normalizeArabicText_ok ct x cps h
  obtain ⟨out2, k1, k2, _⟩ := normalizeArabicText_ok ct out _ h3
  rw [normalizeWide_idem, h2, Except.ok.injEq] at k2
  rw [← k2] at k1
  exact ⟨out, h1, k1⟩

/-- Witness for C2: the text "أَ,a". -/
theorem normalizeArabicText_idempotent_witness :
    from_bytes decoratedText = .ok [0x0623, 0x064E, 0x2C, 0x61] ∧
      ∃ out, normalizeArabicText cLocale decoratedText = .ok out
        ∧ normalizeArabicText cLocale out = .ok out :=
  ⟨by decide, normalizeArabicText_idempotent cLocale decoratedText
    [0x0623, 0x064E, 0x2C, 0x61] (by decide)⟩

/-- C3, as stated, fails: the text "أ" (U+0623) is normalised to "ا" (U+0627), and U+0627 is
not a subsequence of the input code points. -/
theorem normalizeArabicText_not_subsequence :
    from_bytes [byte 0xD8, byte 0xA3] = .ok [0x0623]
      ∧ normalizeArabicText cLocale [byte 0xD8, byte 0xA3] = .ok [byte 0xD8, byte 0xA7]
      ∧ from_bytes [byte 0xD8, byte 0xA7] = .ok [0x0627]
      ∧ normalizeWide cLocale [0x0623] = [0x0627]
      ∧ ¬ List.Sublist (normalizeWide cLocale [0x0623]) [0x0623] := by
  decide

/-- C3, amended: for every input code point sequence the normalised text is the letter-folded
image of a subsequence of the input (so its length is at most the input length), and it is a
subsequence of the input itself whenever no input code point is changed by the letter fold. -/
theorem normalizeArabicText_folded_subsequence (ct : CType) (utf8_text : List Byte)
    (cps : List Nat) (h : from_bytes utf8_text = .ok cps) :
    ∃ out, normalizeArabicText ct utf8_text = .ok out
      ∧ from_bytes out = .ok (normalizeWide ct cps)
      ∧ (∃ s, List.Sublist s cps ∧ normalizeWide ct cps = s.map specFold)
      ∧ (normalizeWide ct cps).length ≤ cps.length
      ∧ ((∀ c ∈ cps, specFold c = c) → List.Sublist (normalizeWide ct cps) cps) := by
  obtain ⟨out, h1, _, h3⟩ := normalizeArabicText_ok ct utf8_text cps h
  obtain ⟨s, hs, e⟩ := normalizeSpec_sublist ct cps
  rw [← normalizeWide_eq_spec] at e
  refine ⟨out, h1, h3, ⟨s, hs, e⟩, ?_, ?_⟩
  · rw [e, List.length_map]
    exact hs.length_le
  · intro hfix
    rw [e, map_specFold_fixed s (fun c hc => hfix c (hs.subset hc))]
    exact hs

/-- Witness for amended C3: the text "أَ,a". -/
theorem normalizeArabicText_folded_subsequence_witness :
    from_bytes decoratedText = .ok [0x0623, 0x064E, 0x2C, 0x61] ∧
      ∃ out, normalizeArabicText cLocale decoratedText = .ok out
        ∧ from_bytes out = .ok (normalizeWide cLocale [0x0623, 0x064E, 0x2C, 0x61])
        ∧ (∃ s, List.Sublist s [0x0623, 0x064E, 0x2C, 0x61]
            ∧ normalizeWide cLocale [0x0623, 0x064E, 0x2C, 0x61] = s.map specFold)
        ∧ (normalizeWide cLocale [0x0623, 0x064E, 0x2C, 0x61]).length
            ≤ [0x0623, 0x064E, 0x2C, 0x61].length
        ∧ ((∀ c ∈ [0x0623, 0x064E, 0x2C, 0x61], specFold c = c) →
            List.Sublist (normalizeWide cLocale [0x0623, 0x064E, 0x2C, 0x61])
              [0x0623, 0x064E, 0x2C, 0x61]) :=
  ⟨by decide, normalizeArabicText_folded_subsequence cLocale decoratedText
    [0x0623, 0x064E, 0x2C, 0x61] (by decide)⟩

/-- C4: for every input code point sequence the output of `normalizeArabicText` contains no
code point of the exclusion classes: none in U+064B..U+0652, no tatweel U+0640, none classified
as punctuation and none classified as a digit. -/
theorem normalizeArabicText_excludes (ct : CType) (utf8_text : List Byte)
    (cps : List Nat) (h : from_bytes utf8_text = .ok cps) :
    ∃ out normalized, normalizeArabicText ct utf8_text = .ok out
      ∧ from_bytes out = .ok normalized
      ∧ normalized = normalizeWide ct cps
      ∧ ∀ c ∈ normalized, ¬ (0x064B ≤ c ∧ c ≤ 0x0652) ∧ c ≠ 0x0640
          ∧ ct.iswpunct c = false ∧ ct.iswdigit c = false := by
  obtain ⟨out, h1, _, h3⟩ := normalizeArabicText_ok ct utf8_text cps h
  refine ⟨out, normalizeWide ct cps, h1, h3, rfl, ?_⟩
  intro c hc
  rw [normalizeWide_eq_spec] at hc
  obtain ⟨hd, ht, hp, hg, _⟩ := normalizeSpec_isNormal ct cps c hc
  refine ⟨?_, ht, hp, hg⟩
  intro hr
  have : isDiacritic c = true := by
    simp only [isDiacritic, Bool.and_eq_true, decide_eq_true_eq]; exact hr
  rw [hd] at this
  cases this

/-- Witness for C4: the text "أَ,a". -/
theorem normalizeArabicText_excludes_witness :
    from_bytes decoratedText = .ok [0x0623, 0x064E, 0x2C, 0x61] ∧
      ∃ out normalized, normalizeArabicText cLocale decoratedText = .ok out
        ∧ from_bytes out = .ok normalized
        ∧ normalized = normalizeWide cLocale [0x0623, 0x064E, 0x2C, 0x61]
        ∧ ∀ c ∈ normalized, ¬ (0x064B ≤ c ∧ c ≤ 0x0652) ∧ c ≠ 0x0640
            ∧ cLocale.iswpunct c = false ∧ cLocale.iswdigit c = false :=
  ⟨by decide, normalizeArabicText_excludes cLocale decoratedText
    [0x0623, 0x064E, 0x2C, 0x61] (by decide)⟩

/-- C5: for every text and window size `k`, `generateNgrams` never reads outside the text
and inserts into the fingerprint exactly the set of the values
`(Σ_{j<k} byte[i+j] * 256^(k-1-j)) mod 1000000007` for `0 ≤ i ≤ length - k`; in particular an
empty fingerprint stays empty when `length < k`.  (The window size needs no lower bound for
this; the constructor makes it at least 1.) -/
theorem generateNgrams_inserts_window_hashes (d : PlagiarismDetector) (text : List Byte)
    (ngrams : Finset Nat) :
    generateNgrams d text ngrams
        = some (ngrams ∪
            ((Finset.range (text.length + 1)).filter
              (fun i => i + d.ngram_size ≤ text.length)).image
              (fun i => (∑ j in Finset.range d.ngram_size,
                (text.getD (i + j) 0).val * 256 ^ (d.ngram_size - 1 - j)) % 1000000007))
      ∧ (text.length < d.ngram_size → generateNgrams d text ∅ = some ∅) := by
  refine ⟨generateNgrams_eq d text ngrams, ?_⟩
  intro h
  rw [generateNgrams_eq, shingleSet_of_lt _ _ h, Finset.union_empty]

/-- C6: for every pair of non-empty fingerprints `A` and `B`, `calculateSimilarity` returns
`|A ∩ B| / |A ∪ B|`: its `common` is `|A ∩ B|`, its divisor `|A| + |B| - common` is
`|A ∪ B|`, and the divisor is positive. -/
theorem calculateSimilarity_is_jaccard (d : PlagiarismDetector) (h1 : d.ngrams1.Nonempty)
    (h2 : d.ngrams2.Nonempty) :
    calculateSimilarity d
        = ((d.ngrams1 ∩ d.ngrams2).card : ℚ) / ((d.ngrams1 ∪ d.ngrams2).card : ℚ)
      ∧ (d.ngrams1.filter (fun ngram => ngram ∈ d.ngrams2)).card
          = (d.ngrams1 ∩ d.ngrams2).card
      ∧ d.ngrams1.card + d.ngrams2.card
          - (d.ngrams1.filter (fun ngram => ngram ∈ d.ngrams2)).card
          = (d.ngrams1 ∪ d.ngrams2).card
      ∧ 0 < (d.ngrams1 ∪ d.ngrams2).card := by
  refine ⟨calculateSimilarity_eq d (Finset.nonempty_iff_ne_empty.mp h1)
    (Finset.nonempty_iff_ne_empty.mp h2), ?_, ?_, ?_⟩
  · rw [filter_mem_eq_inter]
  · rw [filter_mem_eq_inter, total_unique_eq]
  · exact Finset.card_pos.mpr (h1.mono Finset.subset_union_left)

/-- Witness for C6: the fingerprints {1, 2} and {2, 3}. -/
theorem calculateSimilarity_is_jaccard_witness :
    (({1, 2} : Finset Nat).Nonempty ∧ ({2, 3} : Finset Nat).Nonempty) ∧
      (calculateSimilarity ⟨3, {1, 2}, {2, 3}⟩
          = (((({1, 2} : Finset Nat) ∩ {2, 3}).card : ℚ))
            / (((({1, 2} : Finset Nat) ∪ {2, 3}).card : ℚ))
        ∧ (({1, 2} : Finset Nat).filter (fun ngram => ngram ∈ ({2, 3} : Finset Nat))).card
            = (({1, 2} : Finset Nat) ∩ {2, 3}).card
        ∧ ({1, 2} : Finset Nat).card + ({2, 3} : Finset Nat).card
            - (({1, 2} : Finset Nat).filter (fun ngram => ngram ∈ ({2, 3} : Finset Nat))).card
            = (({1, 2} : Finset Nat) ∪ {2, 3}).card
        ∧ 0 < (({1, 2} : Finset Nat) ∪ {2, 3}).card) :=
  ⟨⟨by decide, by decide⟩,
    calculateSimilarity_is_jaccard ⟨3, {1, 2}, {2, 3}⟩ (by decide) (by decide)⟩

/-- C7: comparing a non-empty, validly encoded document with itself yields 100: for every
non-empty document the converter decodes and every window size, `compareFiles` on (d, d)
returns 100.0. -/
theorem compareFiles_self_is_100 (ct : CType) (fs : FileSystem) (d : PlagiarismDetector)
    (file : String) (text : List Byte) (cps : List Nat) (hfile : fs file = some text)
    (hne : text ≠ []) (hvalid : from_bytes text = .ok cps) :
    compareFilesResult ct fs d file file = some 100 := by
  obtain ⟨out, h1, _, _⟩ := normalizeArabicText_ok ct text cps hvalid
  exact compareFilesResult_same ct fs d file file text text out hfile hfile hne hne h1 h1

/-- Witness for C7: the file holding "أَ,a", default window size. -/
theorem compareFiles_self_is_100_witness :
    (sampleFiles "decorated.txt" = some decoratedText ∧ decoratedText ≠ []
        ∧ from_bytes decoratedText = .ok [0x0623, 0x064E, 0x2C, 0x61]) ∧
      compareFilesResult cLocale sampleFiles (new 0) "decorated.txt" "decorated.txt"
        = some 100 :=
  ⟨⟨by decide, by decide, by decide⟩,
    compareFiles_self_is_100 cLocale sampleFiles (new 0) "decorated.txt" decoratedText
      [0x0623, 0x064E, 0x2C, 0x61] (by decide) (by decide) (by decide)⟩

/-- C8: similarity is symmetric: for all documents A and B and every window size,
`compareFiles` on (A, B) and on (B, A) return the same value, whatever the two detectors'
fingerprint sets held before. -/
theorem compareFiles_symmetric (ct : CType) (fs : FileSystem) (k : Nat)
    (A1 B1 A2 B2 : Finset Nat) (fileA fileB : String) :
    ∃ v, compareFilesResult ct fs ⟨k, A1, B1⟩ fileA fileB = some v
      ∧ compareFilesResult ct fs ⟨k, A2, B2⟩ fileB fileA = some v := by
  obtain ⟨v, hv⟩ := compareFilesResult_isSome ct fs ⟨k, A1, B1⟩ fileA fileB
  refine ⟨v, hv, ?_⟩
  rw [← compareFilesResult_comm ct fs k A1 B1 A2 B2 fileA fileB]
  exact hv

/-- C9: diacritic invariance: for every non-empty, validly encoded document `x` (the UTF-8
encoding of its code points) and every document `y` obtained from `x` by inserting code
points of U+064B..U+0652 at arbitrary positions, `y` normalises to the same text as `x` and
`compareFiles` on (x, y) returns 100.0. -/
theorem compareFiles_diacritic_invariance (ct : CType) (fs : FileSystem)
    (d : PlagiarismDetector) (fileX fileY : String) (x y : List Byte) (cpsX cpsY : List Nat)
    (hx : fs fileX = some x) (hy : fs fileY = some y) (hne : x ≠ [])
    (hvalidX : from_bytes x = .ok cpsX) (hencodedX : to_bytes cpsX = .ok x)
    (hvalidY : from_bytes y = .ok cpsY)
    (hins : isDiacriticInsertion cpsX cpsY = true) :
    (∃ out, normalizeArabicText ct x = .ok out ∧ normalizeArabicText ct y = .ok out)
      ∧ compareFilesResult ct fs d fileX fileY = some 100 := by
  have hcx : cpsX ≠ [] := by
    intro hnil
    rw [hnil, to_bytes_nil, Except.ok.injEq] at hencodedX
    exact hne hencodedX.symm
  have hcy : cpsY ≠ [] := isDiacriticInsertion_ne_nil cpsX cpsY hins hcx
  have hney : y ≠ [] := by
    intro hnil
    rw [hnil, from_bytes_nil, Except.ok.injEq] at hvalidY
    exact hcy hvalidY.symm
  exact compareFilesResult_insertion ct fs d fileX fileY x y cpsX cpsY hx hy hne hney hvalidX
    hvalidY hins

/-- Witness for C9: "أ,a" against "أَ,a", which has a fatha inserted. -/
theorem compareFiles_diacritic_invariance_witness :
    (sampleFiles "plain.txt" = some plainText
        ∧ sampleFiles "decorated.txt" = some decoratedText ∧ plainText ≠ []
        ∧ from_bytes plainText = .ok [0x0623, 0x2C, 0x61]
        ∧ to_bytes [0x0623, 0x2C, 0x61] = .ok plainText
        ∧ from_bytes decoratedText = .ok [0x0623, 0x064E, 0x2C, 0x61]
        ∧ isDiacriticInsertion [0x0623, 0x2C, 0x61] [0x0623, 0x064E, 0x2C, 0x61] = true) ∧
      ((∃ out, normalizeArabicText cLocale plainText = .ok out
          ∧ normalizeArabicText cLocale decoratedText = .ok out)
        ∧ compareFilesResult cLocale sampleFiles (new 0) "plain.txt" "decorated.txt"
          = some 100) :=
  ⟨⟨by decide, by decide, by decide, by decide, by decide, by decide, by decide⟩,
    compareFiles_diacritic_invariance cLocale sampleFiles (new 0) "plain.txt" "decorated.txt"
      plainText decoratedText [0x0623, 0x2C, 0x61] [0x0623, 0x064E, 0x2C, 0x61]
      (by decide) (by decide) (by decide) (by decide) (by decide) (by decide) (by decide)⟩

/-- C10: when either input is zero-length before normalisation, `compareFiles` reports an
error: it returns the failure value -1.0, never a percentage such as 0 or 100, whatever the
other input is. -/
theorem compareFiles_empty_input_fails (ct : CType) (fs : FileSystem)
    (d : PlagiarismDetector) (file1 file2 : String)
    (h : fs file1 = some [] ∨ fs file2 = some []) :
    compareFilesResult ct fs d file1 file2 = some (-1)
      ∧ compareFilesResult ct fs d file1 file2 ≠ some 0
      ∧ compareFilesResult ct fs d file1 file2 ≠ some 100 := by
  have hr := compareFilesResult_empty ct fs d file1 file2 h
  rw [hr]
  refine ⟨rfl, ?_, ?_⟩
  · intro hc
    rw [Option.some.injEq] at hc
    norm_num at hc
  · intro hc
    rw [Option.some.injEq] at hc
    norm_num at hc

/-- Witness for C10: an empty first file against the file holding "أَ,a". -/
theorem compareFiles_empty_input_fails_witness :
    (sampleFiles "empty.txt" = some [] ∨ sampleFiles "decorated.txt" = some []) ∧
      (compareFilesResult cLocale sampleFiles (new 0) "empty.txt" "decorated.txt" = some (-1)
        ∧ compareFilesResult cLocale sampleFiles (new 0) "empty.txt" "decorated.txt" ≠ some 0
        ∧ compareFilesResult cLocale sampleFiles (new 0) "empty.txt" "decorated.txt"
            ≠ some 100) :=
  ⟨Or.inl (by decide),
    compareFiles_empty_input_fails cLocale sampleFiles (new 0) "empty.txt" "decorated.txt"
      (Or.inl (by decide))⟩

/-! ## The range of the score -/

theorem inter_card_le_union_card (A B : Finset Nat) : (A ∩ B).card ≤ (A ∪ B).card :=
  Finset.card_le_card (Finset.inter_subset_left.trans Finset.subset_union_left)

theorem calculateSimilarity_bounds (d : PlagiarismDetector) :
    0 ≤ calculateSimilarity d ∧ calculateSimilarity d ≤ 1 := by
  by_cases h1 : d.ngrams1 = ∅
  · by_cases h2 : d.ngrams2 = ∅
    · simp [calculateSimilarity, h1, h2]
    · simp [calculateSimilarity, h1, h2]
  · by_cases h2 : d.ngrams2 = ∅
    · simp [calculateSimilarity, h1, h2]
    · rw [calculateSimilarity_eq d h1 h2]
      have hle : ((d.ngrams1 ∩ d.ngrams2).card : ℚ)
          ≤ ((d.ngrams1 ∪ d.ngrams2).card : ℚ) := by
        exact_mod_cast inter_card_le_union_card d.ngrams1 d.ngrams2
      have hnn : (0 : ℚ) ≤ ((d.ngrams1 ∪ d.ngrams2).card : ℚ) := Nat.cast_nonneg _
      exact ⟨div_nonneg (Nat.cast_nonneg _) hnn, div_le_one_of_le₀ hle hnn⟩

theorem calculateSimilarity_eq_one_iff (d : PlagiarismDetector) :
    calculateSimilarity d = 1 ↔ d.ngrams1 = d.ngrams2 := by
  constructor
  · intro h
    by_cases h1 : d.ngrams1 = ∅
    · by_cases h2 : d.ngrams2 = ∅
      · rw [h1, h2]
      · simp [calculateSimilarity, h1, h2] at h
    · by_cases h2 : d.ngrams2 = ∅
      · simp [calculateSimilarity, h1, h2] at h
      · rw [calculateSimilarity_eq d h1 h2] at h
        have hpos : 0 < (d.ngrams1 ∪ d.ngrams2).card :=
          Finset.card_pos.mpr
            ((Finset.nonempty_iff_ne_empty.mpr h1).mono Finset.subset_union_left)
        have hne : ((d.ngrams1 ∪ d.ngrams2).card : ℚ) ≠ 0 := by
          exact_mod_cast Nat.pos_iff_ne_zero.mp hpos
        rw [div_eq_one_iff_eq hne] at h
        have hcard : (d.ngrams1 ∩ d.ngrams2).card = (d.ngrams1 ∪ d.ngrams2).card := by
          exact_mod_cast h
        have hsub : d.ngrams1 ∩ d.ngrams2 ⊆ d.ngrams1 ∪ d.ngrams2 :=
          Finset.inter_subset_left.trans Finset.subset_union_left
        have heq : d.ngrams1 ∩ d.ngrams2 = d.ngrams1 ∪ d.ngrams2 :=
          Finset.eq_of_subset_of_card_le hsub (le_of_eq hcard.symm)
        apply Finset.Subset.antisymm
        · intro x hx
          have : x ∈ d.ngrams1 ∩ d.ngrams2 := by
            rw [heq]; exact Finset.mem_union_left _ hx
          exact (Finset.mem_inter.mp this).2
        · intro x hx
          have : x ∈ d.ngrams1 ∩ d.ngrams2 := by
            rw [heq]; exact Finset.mem_union_right _ hx
          exact (Finset.mem_inter.mp this).1
  · intro h
    have hd : d = ⟨d.ngram_size, d.ngrams1, d.ngrams1⟩ := by
      cases d; simp only at h; subst h; rfl
    rw [hd]
    exact calculateSimilarity_self _ _

theorem calculateSimilarity_eq_zero_iff (d : PlagiarismDetector) :
    calculateSimilarity d = 0 ↔
      Disjoint d.ngrams1 d.ngrams2 ∧ ¬ (d.ngrams1 = ∅ ∧ d.ngrams2 = ∅) := by
  by_cases h1 : d.ngrams1 = ∅
  · by_cases h2 : d.ngrams2 = ∅
    · simp [calculateSimilarity, h1, h2]
    · simp [calculateSimilarity, h1, h2]
  · by_cases h2 : d.ngrams2 = ∅
    · simp [calculateSimilarity, h1, h2]
    · rw [calculateSimilarity_eq d h1 h2]
      have hpos : 0 < (d.ngrams1 ∪ d.ngrams2).card :=
        Finset.card_pos.mpr
          ((Finset.nonempty_iff_ne_empty.mpr h1).mono Finset.subset_union_left)
      have hne : ((d.ngrams1 ∪ d.ngrams2).card : ℚ) ≠ 0 := by
        exact_mod_cast Nat.pos_iff_ne_zero.mp hpos
      rw [div_eq_zero_iff]
      constructor
      · rintro (h | h)
        · have hc : (d.ngrams1 ∩ d.ngrams2).card = 0 := by exact_mod_cast h
          refine ⟨?_, fun hb => h1 hb.1⟩
          rw [Finset.disjoint_iff_inter_eq_empty]
          exact Finset.card_eq_zero.mp hc
        · exact absurd h hne
      · rintro ⟨hdis, _⟩
        left
        rw [Finset.disjoint_iff_inter_eq_empty] at hdis
        rw [hdis]
        simp

theorem calculateSimilarity_one_empty (d : PlagiarismDetector)
    (h : (d.ngrams1 = ∅ ∧ d.ngrams2 ≠ ∅) ∨ (d.ngrams1 ≠ ∅ ∧ d.ngrams2 = ∅)) :
    calculateSimilarity d = 0 := by
  rcases h with ⟨h1, h2⟩ | ⟨h1, h2⟩
  · simp [calculateSimilarity, h1, h2]
  · simp [calculateSimilarity, h1, h2]

/-! ## `compareFiles`: failures -/

theorem normalizeArabicText_error (ct : CType) (text : List Byte) (e : String)
    (h : from_bytes text = .error e) : normalizeArabicText ct text = .error e := by
  simp only [normalizeArabicText, h]

theorem compareFilesResult_invalid (ct : CType) (fs : FileSystem) (d : PlagiarismDetector)
    (file1 file2 : String)
    (h : (∃ text e, fs file1 = some text ∧ from_bytes text = .error e)
      ∨ (∃ text e, fs file2 = some text ∧ from_bytes text = .error e)) :
    compareFilesResult ct fs d file1 file2 = some (-1) := by
  rw [compareFilesResult_eq]
  rcases h with ⟨text, e, hf, he⟩ | ⟨text, e, hf, he⟩
  · rw [hf]
    cases h2 : fs file2 with
    | none => rfl
    | some text2 =>
      simp only []
      split
      · rfl
      · rw [normalizeArabicText_error ct text e he]
  · rw [hf]
    cases h1 : fs file1 with
    | none => rfl
    | some text1 =>
      simp only []
      split
      · rfl
      · rw [normalizeArabicText_error ct text e he]
        cases normalizeArabicText ct text1 <;> rfl

/-- The outcome of the `try` block and the detector it leaves, case by case. -/
theorem compareFilesBody_eq (ct : CType) (fs : FileSystem) (d : PlagiarismDetector)
    (file1 file2 : String) :
    compareFilesBody ct fs d file1 file2 =
      match fs file1 with
      | none => some (.error ("Failed to open file: " ++ file1), ⟨d.ngram_size, ∅, ∅⟩)
      | some text1 =>
        match fs file2 with
        | none => some (.error ("Failed to open file: " ++ file2), ⟨d.ngram_size, ∅, ∅⟩)
        | some text2 =>
          if (text1.isEmpty || text2.isEmpty) = true then
            some (.error "One or both files are empty", ⟨d.ngram_size, ∅, ∅⟩)
          else
            match normalizeArabicText ct text1 with
            | .error e => some (.error e, ⟨d.ngram_size, ∅, ∅⟩)
            | .ok norm1 =>
              match normalizeArabicText ct text2 with
              | .error e => some (.error e, ⟨d.ngram_size, ∅, ∅⟩)
              | .ok norm2 =>
                some (.ok (calculateSimilarity
                    ⟨d.ngram_size, shingleSet d.ngram_size norm1,
                      shingleSet d.ngram_size norm2⟩ * 100),
                  ⟨d.ngram_size, shingleSet d.ngram_size norm1,
                    shingleSet d.ngram_size norm2⟩) := by
  unfold compareFilesBody readFileAsUTF8
  cases h1 : fs file1 with
  | none => rfl
  | some text1 =>
    cases h2 : fs file2 with
    | none => rfl
    | some text2 =>
      by_cases he : (text1.isEmpty || text2.isEmpty) = true
      · simp only [he, if_true]
      · simp only [he, Bool.false_eq_true, if_false]
        cases hn1 : normalizeArabicText ct text1 with
        | error e => rfl
        | ok norm1 =>
          cases hn2 : normalizeArabicText ct text2 with
          | error e => rfl
          | ok norm2 =>
            simp only [generateNgrams_eq, Finset.empty_union]

theorem compareFilesBody_fresh (ct : CType) (fs : FileSystem) (d : PlagiarismDetector)
    (file1 file2 : String) :
    compareFilesBody ct fs d file1 file2
      = compareFilesBody ct fs ⟨d.ngram_size, ∅, ∅⟩ file1 file2 := by
  rw [compareFilesBody_eq, compareFilesBody_eq]

theorem compareFiles_fresh (ct : CType) (fs : FileSystem) (d : PlagiarismDetector)
    (file1 file2 : String) :
    compareFiles ct fs d file1 file2
      = compareFiles ct fs ⟨d.ngram_size, ∅, ∅⟩ file1 file2 := by
  unfold compareFiles
  rw [compareFilesBody_fresh]

theorem compareFilesBody_outcome (ct : CType) (fs : FileSystem) (d : PlagiarismDetector)
    (file1 file2 : String) :
    (∃ e, compareFilesBody ct fs d file1 file2 = some (.error e, ⟨d.ngram_size, ∅, ∅⟩))
      ∨ (∃ A B, compareFilesBody ct fs d file1 file2
          = some (.ok (calculateSimilarity ⟨d.ngram_size, A, B⟩ * 100),
              ⟨d.ngram_size, A, B⟩)) := by
  rw [compareFilesBody_eq]
  cases fs file1 with
  | none => exact Or.inl ⟨_, rfl⟩
  | some text1 =>
    cases fs file2 with
    | none => exact Or.inl ⟨_, rfl⟩
    | some text2 =>
      by_cases he : (text1.isEmpty || text2.isEmpty) = true
      · simp only [he, if_true]
        exact Or.inl ⟨_, rfl⟩
      · simp only [he, Bool.false_eq_true, if_false]
        cases normalizeArabicText ct text1 with
        | error e => exact Or.inl ⟨_, rfl⟩
        | ok norm1 =>
          cases normalizeArabicText ct text2 with
          | error e => exact Or.inl ⟨_, rfl⟩
          | ok norm2 => exact Or.inr ⟨_, _, rfl⟩

theorem compareFiles_of_body_error (ct : CType) (fs : FileSystem) (d s : PlagiarismDetector)
    (file1 file2 : String) (e : String)
    (h : compareFilesBody ct fs d file1 file2 = some (.error e, s)) :
    compareFiles ct fs d file1 file2 = some (-1, s) := by
  unfold compareFiles
  rw [h]

theorem compareFiles_of_body_ok (ct : CType) (fs : FileSystem) (d s : PlagiarismDetector)
    (file1 file2 : String) (v : ℚ)
    (h : compareFilesBody ct fs d file1 file2 = some (.ok v, s)) :
    compareFiles ct fs d file1 file2 = some (v, s) := by
  unfold compareFiles
  rw [h]

theorem compareFiles_isSome (ct : CType) (fs : FileSystem) (d : PlagiarismDetector)
    (file1 file2 : String) :
    ∃ v s, compareFiles ct fs d file1 file2 = some (v, s) ∧ s.ngram_size = d.ngram_size := by
  rcases compareFilesBody_outcome ct fs d file1 file2 with ⟨e, h⟩ | ⟨A, B, h⟩
  · exact ⟨_, _, compareFiles_of_body_error ct fs d _ file1 file2 e h, rfl⟩
  · exact ⟨_, _, compareFiles_of_body_ok ct fs d _ file1 file2 _ h, rfl⟩

/-! ## The claims, continued -/

/-- C11: for all inputs the value returned by `compareFiles` is either a percentage in the
closed range [0, 100], when the `try` block returns, or the sentinel -1.0, when it throws; the
sentinel is negative and so equal to no percentage of [0, 100], in particular not to 0. -/
theorem compareFiles_percentage_or_sentinel (ct : CType) (fs : FileSystem)
    (d : PlagiarismDetector) (file1 file2 : String) :
    ((∃ v s, compareFilesBody ct fs d file1 file2 = some (.ok v, s)
          ∧ compareFilesResult ct fs d file1 file2 = some v ∧ 0 ≤ v ∧ v ≤ 100)
        ∨ (∃ e s, compareFilesBody ct fs d file1 file2 = some (.error e, s)
          ∧ compareFilesResult ct fs d file1 file2 = some (-1)))
      ∧ (-1 : ℚ) < 0 ∧ (∀ p : ℚ, 0 ≤ p → p ≤ 100 → (-1 : ℚ) ≠ p) := by
  refine ⟨?_, by norm_num, ?_⟩
  · rcases compareFilesBody_outcome ct fs d file1 file2 with ⟨e, h⟩ | ⟨A, B, h⟩
    · right
      refine ⟨e, _, h, ?_⟩
      unfold compareFilesResult
      rw [compareFiles_of_body_error ct fs d _ file1 file2 e h]
      rfl
    · left
      refine ⟨_, _, h, ?_, ?_, ?_⟩
      · unfold compareFilesResult
        rw [compareFiles_of_body_ok ct fs d _ file1 file2 _ h]
        rfl
      · exact mul_nonneg (calculateSimilarity_bounds _).1 (by norm_num)
      · have hb := (calculateSimilarity_bounds ⟨d.ngram_size, A, B⟩).2
        linarith
  · intro p hp _ h
    rw [← h] at hp
    norm_num at hp

/-- C12, as stated, fails: on the file 61 FF, which is not valid UTF-8 and which the
converter rejects, and on an empty file (each compared with the same well-formed file)
`compareFiles` returns the same value. -/
theorem compareFiles_failures_not_distinct :
    scenarioFiles "invalid.txt" = some invalidText
      ∧ from_bytes invalidText = .error fromBytesError
      ∧ scenarioFiles "empty.txt" = some []
      ∧ compareFilesResult cLocale scenarioFiles (new 0) "invalid.txt" "abcdef.txt"
          = compareFilesResult cLocale scenarioFiles (new 0) "empty.txt" "abcdef.txt" := by
  refine ⟨by decide, by decide, by decide, ?_⟩
  rw [compareFilesResult_invalid cLocale scenarioFiles (new 0) "invalid.txt" "abcdef.txt"
      (Or.inl ⟨invalidText, fromBytesError, by decide, by decide⟩),
    compareFilesResult_empty cLocale scenarioFiles (new 0) "empty.txt" "abcdef.txt"
      (Or.inl (by decide))]

/-- C12, amended: `compareFiles` returns the same value -1.0 for an input on which the
converter reports a conversion error (`from_bytes` throws) and for a zero-length input; the two
failures differ only in the exception the `try` block throws (the converter's `range_error`
"wstring_convert::from_bytes" against "One or both files are empty"), whose message goes to
the error stream. -/
theorem compareFiles_failures_share_sentinel (ct : CType) (fs : FileSystem)
    (d : PlagiarismDetector) (fileBad fileEmpty fileOther : String) (bad other : List Byte)
    (e : String) (hbad : fs fileBad = some bad) (hne : bad ≠ [])
    (hinvalid : from_bytes bad = .error e) (hempty : fs fileEmpty = some [])
    (hother : fs fileOther = some other) (hne2 : other ≠ []) :
    compareFilesResult ct fs d fileBad fileOther = some (-1)
      ∧ compareFilesResult ct fs d fileEmpty fileOther = some (-1)
      ∧ compareFilesBody ct fs d fileBad fileOther
          = some (.error e, ⟨d.ngram_size, ∅, ∅⟩)
      ∧ compareFilesBody ct fs d fileEmpty fileOther
          = some (.error "One or both files are empty", ⟨d.ngram_size, ∅, ∅⟩)
      ∧ e = "wstring_convert::from_bytes" ∧ e ≠ "One or both files are empty" := by
  have hmsg : e = "wstring_convert::from_bytes" := from_bytes_error_message hinvalid
  refine ⟨compareFilesResult_invalid ct fs d fileBad fileOther
      (Or.inl ⟨bad, e, hbad, hinvalid⟩),
    compareFilesResult_empty ct fs d fileEmpty fileOther (Or.inl hempty), ?_, ?_, hmsg,
    by rw [hmsg]; decide⟩
  · rw [compareFilesBody_eq, hbad, hother]
    have he : ¬ ((bad.isEmpty || other.isEmpty) = true) := by
      simp only [Bool.or_eq_true, List.isEmpty_iff, not_or]
      exact ⟨hne, hne2⟩
    simp only [he, Bool.false_eq_true, if_false, normalizeArabicText_error ct bad e hinvalid]
  · rw [compareFilesBody_eq, hempty, hother]
    simp only [List.isEmpty_nil, Bool.true_or, if_true]

/-- Witness for amended C12: the byte string 61 FF and the empty file, each against
"abcdef". -/
theorem compareFiles_failures_share_sentinel_witness :
    (scenarioFiles "invalid.txt" = some invalidText ∧ invalidText ≠ []
        ∧ from_bytes invalidText = .error fromBytesError
        ∧ scenarioFiles "empty.txt" = some []
        ∧ scenarioFiles "abcdef.txt" = some asciiAbcdef ∧ asciiAbcdef ≠ []) ∧
      (compareFilesResult cLocale scenarioFiles (new 0) "invalid.txt" "abcdef.txt" = some (-1)
        ∧ compareFilesResult cLocale scenarioFiles (new 0) "empty.txt" "abcdef.txt" = some (-1)
        ∧ compareFilesBody cLocale scenarioFiles (new 0) "invalid.txt" "abcdef.txt"
            = some (.error fromBytesError, ⟨(new 0).ngram_size, ∅, ∅⟩)
        ∧ compareFilesBody cLocale scenarioFiles (new 0) "empty.txt" "abcdef.txt"
            = some (.error "One or both files are empty", ⟨(new 0).ngram_size, ∅, ∅⟩)
        ∧ fromBytesError = "wstring_convert::from_bytes"
        ∧ fromBytesError ≠ "One or both files are empty") :=
  ⟨⟨by decide, by decide, by decide, by decide, by decide, by decide⟩,
    compareFiles_failures_share_sentinel cLocale scenarioFiles (new 0) "invalid.txt"
      "empty.txt" "abcdef.txt" invalidText asciiAbcdef fromBytesError (by decide) (by decide)
      (by decide) (by decide) (by decide) (by decide)⟩

/-- C13: two empty fingerprints yield 1.0: `calculateSimilarity` returns 1.0 when both sets
are empty, so for every pair of non-empty, validly encoded documents (`normalizeArabicText`
returns on them) whose normalised texts, the UTF-8 strings it returns, are both shorter than
the window size, `compareFiles` returns 100.0. -/
theorem compareFiles_both_fingerprints_empty (ct : CType) (fs : FileSystem)
    (d : PlagiarismDetector) (file1 file2 : String) (text1 text2 norm1 norm2 : List Byte)
    (h1 : fs file1 = some text1) (h2 : fs file2 = some text2)
    (e1 : text1 ≠ []) (e2 : text2 ≠ [])
    (n1 : normalizeArabicText ct text1 = .ok norm1)
    (n2 : normalizeArabicText ct text2 = .ok norm2)
    (s1 : norm1.length < d.ngram_size) (s2 : norm2.length < d.ngram_size) :
    calculateSimilarity ⟨d.ngram_size, ∅, ∅⟩ = 1
      ∧ generateNgrams d norm1 ∅ = some ∅ ∧ generateNgrams d norm2 ∅ = some ∅
      ∧ compareFilesResult ct fs d file1 file2 = some 100 := by
  refine ⟨calculateSimilarity_self _ ∅, ?_, ?_, ?_⟩
  · rw [generateNgrams_eq, shingleSet_of_lt _ _ s1, Finset.union_empty]
  · rw [generateNgrams_eq, shingleSet_of_lt _ _ s2, Finset.union_empty]
  · rw [compareFilesResult_ok ct fs d file1 file2 text1 text2 norm1 norm2 h1 h2 e1 e2 n1 n2,
      shingleSet_of_lt _ _ s1, shingleSet_of_lt _ _ s2, calculateSimilarity_self]
    norm_num

/-- Witness for C13: "أ,a" and "أَ,a" both normalise to the three bytes of "اa"; window
size 5. -/
theorem compareFiles_both_fingerprints_empty_witness :
    (sampleFiles "plain.txt" = some plainText
        ∧ sampleFiles "decorated.txt" = some decoratedText
        ∧ plainText ≠ [] ∧ decoratedText ≠ []
        ∧ normalizeArabicText cLocale plainText = .ok [byte 0xD8, byte 0xA7, byte 0x61]
        ∧ normalizeArabicText cLocale decoratedText = .ok [byte 0xD8, byte 0xA7, byte 0x61]
        ∧ [byte 0xD8, byte 0xA7, byte 0x61].length < (new 5).ngram_size) ∧
      (calculateSimilarity ⟨(new 5).ngram_size, ∅, ∅⟩ = 1
        ∧ generateNgrams (new 5) [byte 0xD8, byte 0xA7, byte 0x61] ∅ = some ∅
        ∧ generateNgrams (new 5) [byte 0xD8, byte 0xA7, byte 0x61] ∅ = some ∅
        ∧ compareFilesResult cLocale sampleFiles (new 5) "plain.txt" "decorated.txt"
            = some 100) :=
  ⟨⟨by decide, by decide, by decide, by decide, by decide, by decide, by decide⟩,
    compareFiles_both_fingerprints_empty cLocale sampleFiles (new 5) "plain.txt"
      "decorated.txt" plainText decoratedText [byte 0xD8, byte 0xA7, byte 0x61]
      [byte 0xD8, byte 0xA7, byte 0x61]
      (by decide) (by decide) (by decide) (by decide) (by decide) (by decide) (by decide)
      (by decide)⟩

/-- C14: when exactly one of the two fingerprints is empty and the other is non-empty,
`calculateSimilarity` returns 0.0, whichever of the two is the empty one. -/
theorem calculateSimilarity_exactly_one_empty (d : PlagiarismDetector)
    (h : (d.ngrams1 = ∅ ∧ d.ngrams2.Nonempty) ∨ (d.ngrams1.Nonempty ∧ d.ngrams2 = ∅)) :
    calculateSimilarity d = 0 := by
  apply calculateSimilarity_one_empty
  rcases h with ⟨h1, h2⟩ | ⟨h1, h2⟩
  · exact Or.inl ⟨h1, Finset.nonempty_iff_ne_empty.mp h2⟩
  · exact Or.inr ⟨Finset.nonempty_iff_ne_empty.mp h1, h2⟩

/-- Witness for C14: the empty fingerprint against the fingerprint {7}. -/
theorem calculateSimilarity_exactly_one_empty_witness :
    (((∅ : Finset Nat) = ∅ ∧ ({7} : Finset Nat).Nonempty)
        ∨ ((∅ : Finset Nat).Nonempty ∧ ({7} : Finset Nat) = ∅)) ∧
      calculateSimilarity ⟨3, ∅, {7}⟩ = 0 :=
  ⟨Or.inl ⟨rfl, by decide⟩,
    calculateSimilarity_exactly_one_empty ⟨3, ∅, {7}⟩ (Or.inl ⟨rfl, by decide⟩)⟩

/-- C17: each comparison is self-contained: for every pair of inputs, `compareFiles` on a
detector whose two fingerprint sets hold whatever earlier calls left returns the same value,
and leaves the same state, as on a freshly constructed detector of the same window size,
because both sets are cleared first; this covers the detector left by any earlier call. -/
theorem compareFiles_self_contained (ct : CType) (fs : FileSystem) (size : Int)
    (A B : Finset Nat) (file1 file2 : String) :
    (∃ v s, compareFiles ct fs ⟨(new size).ngram_size, A, B⟩ file1 file2 = some (v, s)
        ∧ compareFiles ct fs (new size) file1 file2 = some (v, s)
        ∧ compareFilesResult ct fs ⟨(new size).ngram_size, A, B⟩ file1 file2 = some v
        ∧ compareFilesResult ct fs (new size) file1 file2 = some v)
      ∧ (∀ (earlier1 earlier2 : String) (v0 : ℚ) (used : PlagiarismDetector),
          compareFiles ct fs (new size) earlier1 earlier2 = some (v0, used) →
            compareFiles ct fs used file1 file2 = compareFiles ct fs (new size) file1 file2) := by
  constructor
  · obtain ⟨v, s, hv, _⟩ := compareFiles_isSome ct fs (new size) file1 file2
    have hused :
        compareFiles ct fs ⟨(new size).ngram_size, A, B⟩ file1 file2 = some (v, s) := by
      rw [compareFiles_fresh]
      exact hv
    refine ⟨v, s, hused, hv, ?_, ?_⟩
    · unfold compareFilesResult
      rw [hused]
      rfl
    · unfold compareFilesResult
      rw [hv]
      rfl
  · intro earlier1 earlier2 v0 used hearlier
    obtain ⟨v, s, hv, hs⟩ := compareFiles_isSome ct fs (new size) earlier1 earlier2
    rw [hv, Option.some.injEq, Prod.mk.injEq] at hearlier
    rw [compareFiles_fresh ct fs used, ← hearlier.2, hs]
    rfl

/-- C20: for every pair of fingerprints `A` and `B`, `calculateSimilarity` returns 1.0 if and
only if `A` and `B` are equal as sets, and returns 0.0 if and only if `A` and `B` are disjoint
and not both empty. -/
theorem calculateSimilarity_extremes (d : PlagiarismDetector) :
    (calculateSimilarity d = 1 ↔ d.ngrams1 = d.ngrams2)
      ∧ (calculateSimilarity d = 0 ↔
          Disjoint d.ngrams1 d.ngrams2 ∧ ¬ (d.ngrams1 = ∅ ∧ d.ngrams2 = ∅)) :=
  ⟨calculateSimilarity_eq_one_iff d, calculateSimilarity_eq_zero_iff d⟩

/-! ## The scenarios -/

theorem normalizeArabicText_fixed (ct : CType) (text : List Byte) (cps : List Nat)
    (hdec : from_bytes text = .ok cps) (hnormal : ∀ c ∈ cps, isNormal ct c)
    (henc : to_bytes cps = .ok text) : normalizeArabicText ct text = .ok text := by
  simp only [normalizeArabicText, hdec, normalizeWide_eq_spec,
    normalizeSpec_fixed ct cps hnormal, henc]

theorem isNormal_ascii_letter (ct : CType) (c : Nat) (h1 : 97 ≤ c) (h2 : c ≤ 122)
    (hct : ct.iswpunct c = false ∧ ct.iswdigit c = false) : isNormal ct c := by
  refine ⟨?_, by omega, hct.1, hct.2, ?_⟩
  · simp only [isDiacritic, Bool.and_eq_false_imp, decide_eq_true_eq, decide_eq_false_iff_not]
    omega
  · simp only [specFold, List.mem_cons, List.mem_singleton, List.not_mem_nil, or_false]
    split_ifs <;> omega

theorem shingleSet_abcdef :
    shingleSet 3 asciiAbcdef = {6382179, 6447972, 6513765, 6579558} := by
  decide

theorem shingleSet_abcxyz :
    shingleSet 3 asciiAbcxyz = {6382179, 6447992, 6518905, 7895418} := by
  decide

theorem normalizeSpec_hamza_bare (ct : CType) :
    normalizeSpec ct [0x0623] = normalizeSpec ct [0x0627] := by
  rw [normalizeSpec_singleton, normalizeSpec_singleton]
  have h1 : specFold 0x0623 = 0x0627 := by decide
  have h2 : specFold 0x0627 = 0x0627 := by decide
  have h3 : isDiacritic 0x0623 = false := by decide
  have h4 : isDiacritic 0x0627 = false := by decide
  rw [h1, h2, h3, h4]

theorem normalizeWide_hamza_bare (ct : CType) (rest : List Nat) :
    normalizeWide ct (0x0623 :: rest) = normalizeWide ct (0x0627 :: rest) := by
  rw [normalizeWide_cons, normalizeWide_cons, normalizeStep_eq_spec, normalizeStep_eq_spec,
    normalizeSpec_hamza_bare]

/-- C15: with window size 3 the documents "abcdef" and "abcxyz" have fingerprints of 4 hashes
each that share exactly one hash, that of "abc"; the union has 7 hashes, the similarity is
1/7 and `compareFiles` returns 100/7 (about 14.29).  The letters are taken as not classified
punctuation or digit, as in every locale. -/
theorem compareFiles_abcdef_abcxyz (ct : CType) (fs : FileSystem) (d : PlagiarismDetector)
    (fileA fileB : String)
    (hct : ∀ c, 97 ≤ c → c ≤ 122 → ct.iswpunct c = false ∧ ct.iswdigit c = false)
    (hk : d.ngram_size = 3) (hA : fs fileA = some asciiAbcdef)
    (hB : fs fileB = some asciiAbcxyz) :
    generateNgrams d asciiAbcdef ∅ = some {6382179, 6447972, 6513765, 6579558}
      ∧ generateNgrams d asciiAbcxyz ∅ = some {6382179, 6447992, 6518905, 7895418}
      ∧ ({6382179, 6447972, 6513765, 6579558} : Finset Nat).card = 4
      ∧ ({6382179, 6447992, 6518905, 7895418} : Finset Nat).card = 4
      ∧ ({6382179, 6447972, 6513765, 6579558} ∩ {6382179, 6447992, 6518905, 7895418}
          : Finset Nat) = {6382179}
      ∧ windowHash d asciiAbcdef 0 = some 6382179
      ∧ ({6382179, 6447972, 6513765, 6579558} ∪ {6382179, 6447992, 6518905, 7895418}
          : Finset Nat).card = 7
      ∧ calculateSimilarity ⟨d.ngram_size, {6382179, 6447972, 6513765, 6579558},
          {6382179, 6447992, 6518905, 7895418}⟩ = 1 / 7
      ∧ compareFilesResult ct fs d fileA fileB = some (100 / 7) := by
  have hnA : normalizeArabicText ct asciiAbcdef = .ok asciiAbcdef := by
    apply normalizeArabicText_fixed ct asciiAbcdef [97, 98, 99, 100, 101, 102] (by decide) _
      (by decide)
    intro c hc
    simp only [List.mem_cons, List.mem_singleton, List.not_mem_nil, or_false] at hc
    exact isNormal_ascii_letter ct c (by omega) (by omega) (hct c (by omega) (by omega))
  have hnB : normalizeArabicText ct asciiAbcxyz = .ok asciiAbcxyz := by
    apply normalizeArabicText_fixed ct asciiAbcxyz [97, 98, 99, 120, 121, 122] (by decide) _
      (by decide)
    intro c hc
    simp only [List.mem_cons, List.mem_singleton, List.not_mem_nil, or_false] at hc
    exact isNormal_ascii_letter ct c (by omega) (by omega) (hct c (by omega) (by omega))
  have hinter : ({6382179, 6447972, 6513765, 6579558} ∩ {6382179, 6447992, 6518905, 7895418}
      : Finset Nat) = {6382179} := by decide
  have hunion : ({6382179, 6447972, 6513765, 6579558} ∪ {6382179, 6447992, 6518905, 7895418}
      : Finset Nat).card = 7 := by decide
  have hsim : calculateSimilarity ⟨d.ngram_size, {6382179, 6447972, 6513765, 6579558},
      {6382179, 6447992, 6518905, 7895418}⟩ = 1 / 7 := by
    rw [calculateSimilarity_eq _
      (show ({6382179, 6447972, 6513765, 6579558} : Finset Nat) ≠ ∅ by decide)
      (show ({6382179, 6447992, 6518905, 7895418} : Finset Nat) ≠ ∅ by decide)]
    simp only [hinter, hunion, Finset.card_singleton]
    norm_num
  refine ⟨?_, ?_, by decide, by decide, hinter, ?_, hunion, hsim, ?_⟩
  · rw [generateNgrams_eq, hk, shingleSet_abcdef, Finset.empty_union]
  · rw [generateNgrams_eq, hk, shingleSet_abcxyz, Finset.empty_union]
  · rw [windowHash_eq d asciiAbcdef 0 (by rw [hk]; decide), hk]
    decide
  · rw [compareFilesResult_ok ct fs d fileA fileB asciiAbcdef asciiAbcxyz asciiAbcdef
      asciiAbcxyz hA hB (by decide) (by decide) hnA hnB]
    have hs := hsim
    rw [hk] at hs ⊢
    rw [shingleSet_abcdef, shingleSet_abcxyz, hs]
    norm_num

/-- Witness for C15: the "C" locale, the default window size and the two scenario files. -/
theorem compareFiles_abcdef_abcxyz_witness :
    ((∀ c, 97 ≤ c → c ≤ 122 → cLocale.iswpunct c = false ∧ cLocale.iswdigit c = false)
        ∧ (new 0).ngram_size = 3
        ∧ scenarioFiles "abcdef.txt" = some asciiAbcdef
        ∧ scenarioFiles "abcxyz.txt" = some asciiAbcxyz) ∧
      compareFilesResult cLocale scenarioFiles (new 0) "abcdef.txt" "abcxyz.txt"
        = some (100 / 7) :=
  have hct : ∀ c, 97 ≤ c → c ≤ 122 →
      cLocale.iswpunct c = false ∧ cLocale.iswdigit c = false := by
    intro c h1 h2
    simp only [cLocale, Bool.or_eq_false_iff, Bool.and_eq_false_imp, decide_eq_true_eq,
      decide_eq_false_iff_not]
    omega
  ⟨⟨hct, by decide, by decide, by decide⟩,
    (compareFiles_abcdef_abcxyz cLocale scenarioFiles (new 0) "abcdef.txt" "abcxyz.txt" hct
      (by decide) (by decide) (by decide)).2.2.2.2.2.2.2.2⟩

/-- C16: the strings "أحمد" (U+0623 U+062D U+0645 U+062F) and "احمد" (U+0627 U+062D U+0645
U+062F) normalise to the identical sequence, and `compareFiles` on them returns 100.0 for
every window size. -/
theorem compareFiles_hamza_bare (ct : CType) (fs : FileSystem) (d : PlagiarismDetector)
    (file1 file2 : String) (h1 : fs file1 = some ahmadHamza)
    (h2 : fs file2 = some ahmadBare) :
    from_bytes ahmadHamza = .ok [0x0623, 0x062D, 0x0645, 0x062F]
      ∧ from_bytes ahmadBare = .ok [0x0627, 0x062D, 0x0645, 0x062F]
      ∧ normalizeWide ct [0x0623, 0x062D, 0x0645, 0x062F]
          = normalizeWide ct [0x0627, 0x062D, 0x0645, 0x062F]
      ∧ (∃ out, normalizeArabicText ct ahmadHamza = .ok out
          ∧ normalizeArabicText ct ahmadBare = .ok out)
      ∧ compareFilesResult ct fs d file1 file2 = some 100 := by
  have d1 : from_bytes ahmadHamza = .ok [0x0623, 0x062D, 0x0645, 0x062F] := by decide
  have d2 : from_bytes ahmadBare = .ok [0x0627, 0x062D, 0x0645, 0x062F] := by decide
  have hw := normalizeWide_hamza_bare ct [0x062D, 0x0645, 0x062F]
  obtain ⟨out1, n1, t1, _⟩ := normalizeArabicText_ok ct ahmadHamza _ d1
  obtain ⟨out2, n2, t2, _⟩ := normalizeArabicText_ok ct ahmadBare _ d2
  rw [hw, t2, Except.ok.injEq] at t1
  subst t1
  exact ⟨d1, d2, hw, ⟨out2, n1, n2⟩,
    compareFilesResult_same ct fs d file1 file2 ahmadHamza ahmadBare out2 h1 h2 (by decide)
      (by decide) n1 n2⟩

/-- Witness for C16: the two scenario files, the "C" locale and window size 8, the length of
the two strings in bytes. -/
theorem compareFiles_hamza_bare_witness :
    (scenarioFiles "hamza.txt" = some ahmadHamza ∧ scenarioFiles "bare.txt" = some ahmadBare) ∧
      compareFilesResult cLocale scenarioFiles (new 8) "hamza.txt" "bare.txt" = some 100 :=
  ⟨⟨by decide, by decide⟩,
    (compareFiles_hamza_bare cLocale scenarioFiles (new 8) "hamza.txt" "bare.txt" (by decide)
      (by decide)).2.2.2.2⟩

/-! ## No error condition is reached -/

theorem hash_step_fits (hash : Nat) (b : Byte) (h : hash < MOD) :
    hash * BASE + b.val < 2 ^ 64 := by
  have hb := b.isLt
  simp only [BASE, MOD] at h ⊢
  omega

theorem polynomialHash_lt (m : Nat) (text : List Byte) (i : Nat) :
    polynomialHash m text i < MOD :=
  Nat.mod_lt _ (by decide)

theorem foldlM_hashChecked (text : List Byte) (i m : Nat) (h : i + m ≤ text.length) :
    (List.range m).foldlM (fun hash j =>
        match text[i + j]? with
        | none => (.error .indexOutOfRange : Except Hazard Nat)
        | some b =>
          if hash * BASE + b.val < 2 ^ 64 then .ok ((hash * BASE + b.val) % MOD)
          else .error .unsignedWrap) 0
      = .ok (polynomialHash m text i) := by
  induction m with
  | zero => rfl
  | succ m ih =>
    rw [List.range_succ, List.foldlM_append, ih (by omega)]
    have hget : text[i + m]? = some (text.getD (i + m) 0) := by
      rw [List.getD_eq_getElem?_getD, List.getElem?_eq_getElem (by omega)]; rfl
    have hfit := hash_step_fits (polynomialHash m text i) (text.getD (i + m) 0)
      (polynomialHash_lt m text i)
    have hstep := hashStep_eq text i m (by omega)
    simp only [hashStep, hget, Option.some.injEq, Nat.mod_eq_of_lt hfit] at hstep
    simp only [List.foldlM_cons, List.foldlM_nil, hget, bind, Except.bind, hfit, if_true,
      hstep, pure, Except.pure]

theorem windowHashChecked_eq (d : PlagiarismDetector) (text : List Byte) (i : Nat)
    (h : i + d.ngram_size ≤ text.length) :
    windowHashChecked d text i = .ok (polynomialHash d.ngram_size text i) :=
  foldlM_hashChecked text i d.ngram_size h

theorem foldlM_insertChecked (d : PlagiarismDetector) (text : List Byte) (g : Nat → Nat)
    (l : List Nat) (hl : ∀ i ∈ l, windowHashChecked d text i = .ok (g i)) (s : Finset Nat) :
    l.foldlM (fun ngrams i =>
        match windowHashChecked d text i with
        | .error hazard => (.error hazard : Except Hazard (Finset Nat))
        | .ok hash => .ok (insert hash ngrams)) s
      = .ok (s ∪ (l.map g).toFinset) := by
  induction l generalizing s with
  | nil => simp [pure, Except.pure]
  | cons i is ih =>
    rw [List.foldlM_cons, hl i (List.mem_cons_self _ _)]
    show List.foldlM _ (insert (g i) s) is = _
    rw [ih (fun j hj => hl j (List.mem_cons_of_mem _ hj))]
    congr 1
    ext x
    simp only [List.map_cons, List.toFinset_cons, Finset.mem_union, Finset.mem_insert]
    tauto

theorem generateNgramsChecked_eq (d : PlagiarismDetector) (text : List Byte)
    (ngrams : Finset Nat) :
    generateNgramsChecked d text ngrams = .ok (ngrams ∪ shingleSet d.ngram_size text) := by
  unfold generateNgramsChecked
  by_cases h : text.length < d.ngram_size
  · rw [if_pos h, shingleSet_of_lt _ _ h, Finset.union_empty]
  · have hsub : checkedSub text.length d.ngram_size = some (text.length - d.ngram_size) := by
      simp only [checkedSub]
      rw [if_pos (by omega)]
    rw [if_neg h, shingleSet_of_le _ _ (by omega), hsub]
    exact foldlM_insertChecked d text (polynomialHash d.ngram_size text) _
      (fun i hi => windowHashChecked_eq d text i (by have := List.mem_range.mp hi; omega))
      ngrams

theorem common_le_card (A B : Finset Nat) :
    (A.filter (fun ngram => ngram ∈ B)).card ≤ A.card :=
  Finset.card_le_card (Finset.filter_subset _ _)

theorem calculateSimilarityChecked_eq (d : PlagiarismDetector) :
    calculateSimilarityChecked d = .ok (calculateSimilarity d) := by
  unfold calculateSimilarityChecked calculateSimilarity
  by_cases h1 : d.ngrams1 = ∅ ∧ d.ngrams2 = ∅
  · rw [if_pos h1, if_pos h1]
  · rw [if_neg h1, if_neg h1]
    by_cases h2 : d.ngrams1 = ∅ ∨ d.ngrams2 = ∅
    · rw [if_pos h2, if_pos h2]
    · rw [if_neg h2, if_neg h2]
      have hle := common_le_card d.ngrams1 d.ngrams2
      have hsub : checkedSub (d.ngrams1.card + d.ngrams2.card)
          (d.ngrams1.filter (fun ngram => ngram ∈ d.ngrams2)).card
          = some (d.ngrams1.card + d.ngrams2.card
              - (d.ngrams1.filter (fun ngram => ngram ∈ d.ngrams2)).card) := by
        simp only [checkedSub]
        rw [if_pos (by omega)]
      have hpos : 0 < d.ngrams2.card :=
        Finset.card_pos.mpr (Finset.nonempty_iff_ne_empty.mpr (fun h => h2 (Or.inr h)))
      have hne : ¬ (d.ngrams1.card + d.ngrams2.card
          - (d.ngrams1.filter (fun ngram => ngram ∈ d.ngrams2)).card = 0) := by omega
      simp only [hsub, hne, if_false]

/-- C18: `generateNgrams` and `calculateSimilarity` never hit an error condition: the window
size the constructor fixes is at least 1 (a non-positive argument becomes 3); for every text
the variants with explicit checks return without a hazard and agree with the functions
themselves, that is every index `i + j` read is below the length, `length - k` is computed
only when `length ≥ k`, every `hash * 256 + byte` is below 2^64, and the divisor
`|A| + |B| - common` is positive whenever the division is reached. -/
theorem no_error_condition (size : Int) (d : PlagiarismDetector) (text : List Byte)
    (ngrams : Finset Nat) :
    1 ≤ (new size).ngram_size
      ∧ (size ≤ 0 → (new size).ngram_size = 3)
      ∧ (0 < size → (new size).ngram_size = size.toNat)
      ∧ generateNgramsChecked d text ngrams = .ok (ngrams ∪ shingleSet d.ngram_size text)
      ∧ generateNgrams d text ngrams = some (ngrams ∪ shingleSet d.ngram_size text)
      ∧ (∀ i j, ¬ text.length < d.ngram_size → i ≤ text.length - d.ngram_size →
          j < d.ngram_size → i + j < text.length ∧ d.ngram_size ≤ text.length)
      ∧ (∀ (hash : Nat) (b : Byte), hash < MOD → hash * BASE + b.val < 2 ^ 64)
      ∧ calculateSimilarityChecked d = .ok (calculateSimilarity d)
      ∧ (¬ (d.ngrams1 = ∅ ∧ d.ngrams2 = ∅) → ¬ (d.ngrams1 = ∅ ∨ d.ngrams2 = ∅) →
          (d.ngrams1.filter (fun ngram => ngram ∈ d.ngrams2)).card
              ≤ d.ngrams1.card + d.ngrams2.card
            ∧ 0 < d.ngrams1.card + d.ngrams2.card
                - (d.ngrams1.filter (fun ngram => ngram ∈ d.ngrams2)).card) := by
  refine ⟨?_, ?_, ?_, generateNgramsChecked_eq d text ngrams, generateNgrams_eq d text ngrams,
    ?_, hash_step_fits, calculateSimilarityChecked_eq d, ?_⟩
  · unfold new
    by_cases h : size > 0
    · simp only [h, if_true]
      omega
    · simp only [h, if_false, DEFAULT_NGRAM_SIZE]
      omega
  · intro h
    unfold new
    have : ¬ size > 0 := by omega
    simp only [this, if_false, DEFAULT_NGRAM_SIZE]
  · intro h
    unfold new
    simp only [gt_iff_lt, h, if_true]
  · intro i j h1 h2 h3
    omega
  · intro _ h2
    have hle := common_le_card d.ngrams1 d.ngrams2
    have hpos : 0 < d.ngrams2.card :=
      Finset.card_pos.mpr (Finset.nonempty_iff_ne_empty.mpr (fun h => h2 (Or.inr h)))
    omega

/-! ## Windows and their hashes -/

theorem windowAt_length (k : Nat) (text : List Byte) (i : Nat) (h : i + k ≤ text.length) :
    (windowAt k text i).length = k := by
  simp only [windowAt, List.length_take, List.length_drop]
  omega

theorem windowAt_getD (k : Nat) (text : List Byte) (i j : Nat) (hj : j < k) :
    (windowAt k text i).getD j 0 = text.getD (i + j) 0 := by
  simp only [windowAt, List.getD_eq_getElem?_getD, List.getElem?_take, hj, if_true,
    List.getElem?_drop]

theorem windowSum_windowAt (k : Nat) (text : List Byte) (i : Nat) :
    windowSum k (windowAt k text i) 0 = windowSum k text i := by
  unfold windowSum
  apply Finset.sum_congr rfl
  intro j hj
  rw [Nat.zero_add, windowAt_getD k text i j (Finset.mem_range.mp hj)]

theorem polynomialHash_windowAt (k : Nat) (text : List Byte) (i : Nat) :
    polynomialHash k (windowAt k text i) 0 = polynomialHash k text i := by
  rw [polynomialHash_eq, polynomialHash_eq, windowSum_windowAt]

theorem windowSum_lt (m : Nat) (text : List Byte) (i : Nat) :
    windowSum m text i < 256 ^ m := by
  induction m with
  | zero => simp [windowSum]
  | succ m ih =>
    have hb := (text.getD (i + m) 0).isLt
    rw [windowSum_succ, pow_succ]
    omega

theorem polynomialHash_small (k : Nat) (hk : k ≤ 3) (text : List Byte) (i : Nat) :
    polynomialHash k text i = windowSum k text i := by
  rw [polynomialHash_eq]
  apply Nat.mod_eq_of_lt
  have h1 := windowSum_lt k text i
  have h2 : 256 ^ k ≤ 256 ^ 3 := Nat.pow_le_pow_right (by decide) hk
  have h3 : 256 ^ 3 < 1000000007 := by decide
  omega

/-- Equal window polynomials have equal bytes: the digits of a number in base 256. -/
theorem windowSum_inj (k : Nat) (text1 text2 : List Byte) (i1 i2 : Nat)
    (h : windowSum k text1 i1 = windowSum k text2 i2) :
    ∀ j, j < k → text1.getD (i1 + j) 0 = text2.getD (i2 + j) 0 := by
  induction k with
  | zero => intro j hj; omega
  | succ k ih =>
    rw [windowSum_succ, windowSum_succ] at h
    have hb1 := (text1.getD (i1 + k) 0).isLt
    have hb2 := (text2.getD (i2 + k) 0).isLt
    have hsum : windowSum k text1 i1 = windowSum k text2 i2 := by omega
    have hlast : (text1.getD (i1 + k) 0).val = (text2.getD (i2 + k) 0).val := by omega
    intro j hj
    by_cases hjk : j < k
    · exact ih hsum j hjk
    · have : j = k := by omega
      subst this
      exact Fin.ext hlast

theorem eq_of_getD_eq (k : Nat) (w1 w2 : List Byte) (h1 : w1.length = k) (h2 : w2.length = k)
    (h : ∀ j, j < k → w1.getD (0 + j) 0 = w2.getD (0 + j) 0) : w1 = w2 := by
  apply List.ext_getElem (by rw [h1, h2])
  intro j hj1 hj2
  have hj := h j (by omega)
  rw [Nat.zero_add, List.getD_eq_getElem _ _ hj1, List.getD_eq_getElem _ _ hj2] at hj
  exact hj

theorem polynomialHash_injOn (k : Nat) (hk : k ≤ 3) (w1 w2 : List Byte)
    (h1 : w1.length = k) (h2 : w2.length = k)
    (h : polynomialHash k w1 0 = polynomialHash k w2 0) : w1 = w2 := by
  rw [polynomialHash_small k hk, polynomialHash_small k hk] at h
  exact eq_of_getD_eq k w1 w2 h1 h2 (windowSum_inj k w1 w2 0 0 h)

theorem windowSet_length (k : Nat) (text : List Byte) :
    ∀ w ∈ windowSet k text, w.length = k := by
  intro w hw
  simp only [windowSet, Finset.mem_image, Finset.mem_filter, Finset.mem_range] at hw
  obtain ⟨i, ⟨_, hi⟩, rfl⟩ := hw
  exact windowAt_length k text i hi

theorem shingleSet_eq_image (k : Nat) (text : List Byte) :
    shingleSet k text = (windowSet k text).image (fun w => polynomialHash k w 0) := by
  unfold shingleSet windowSet
  rw [Finset.image_image]
  apply Finset.image_congr
  intro i _
  exact (polynomialHash_windowAt k text i).symm

theorem hash_injOn_windows (k : Nat) (hk : k ≤ 3) (text1 text2 : List Byte) :
    Set.InjOn (fun w => polynomialHash k w 0)
      (↑(windowSet k text1 ∪ windowSet k text2) : Set (List Byte)) := by
  intro w1 hw1 w2 hw2 h
  have l1 : w1.length = k := by
    rcases Finset.mem_union.mp (Finset.mem_coe.mp hw1) with h' | h'
    · exact windowSet_length k text1 w1 h'
    · exact windowSet_length k text2 w1 h'
  have l2 : w2.length = k := by
    rcases Finset.mem_union.mp (Finset.mem_coe.mp hw2) with h' | h'
    · exact windowSet_length k text1 w2 h'
    · exact windowSet_length k text2 w2 h'
  exact polynomialHash_injOn k hk w1 w2 l1 l2 h

theorem shingleSet_card (k : Nat) (hk : k ≤ 3) (text : List Byte) :
    (shingleSet k text).card = (windowSet k text).card := by
  rw [shingleSet_eq_image]
  apply Finset.card_image_of_injOn
  exact (hash_injOn_windows k hk text text).mono (by simp)

theorem shingleSet_inter_card (k : Nat) (hk : k ≤ 3) (text1 text2 : List Byte) :
    (shingleSet k text1 ∩ shingleSet k text2).card
      = (windowSet k text1 ∩ windowSet k text2).card := by
  rw [shingleSet_eq_image, shingleSet_eq_image,
    ← Finset.image_inter_of_injOn (windowSet k text1) (windowSet k text2)
      (by rw [← Finset.coe_union]; exact hash_injOn_windows k hk text1 text2)]
  apply Finset.card_image_of_injOn
  exact (hash_injOn_windows k hk text1 text2).mono
    (Finset.coe_subset.mpr (Finset.inter_subset_left.trans Finset.subset_union_left))

theorem shingleSet_union_card (k : Nat) (hk : k ≤ 3) (text1 text2 : List Byte) :
    (shingleSet k text1 ∪ shingleSet k text2).card
      = (windowSet k text1 ∪ windowSet k text2).card := by
  rw [shingleSet_eq_image, shingleSet_eq_image, ← Finset.image_union]
  exact Finset.card_image_of_injOn (hash_injOn_windows k hk text1 text2)

theorem shingleSet_eq_empty_iff (k : Nat) (text : List Byte) :
    shingleSet k text = ∅ ↔ windowSet k text = ∅ := by
  rw [shingleSet_eq_image, Finset.image_eq_empty]

theorem calculateSimilarity_eq_windowSimilarity (k : Nat) (hk : k ≤ 3)
    (text1 text2 : List Byte) :
    calculateSimilarity ⟨k, shingleSet k text1, shingleSet k text2⟩
      = windowSimilarity (windowSet k text1) (windowSet k text2) := by
  unfold windowSimilarity
  by_cases h1 : shingleSet k text1 = ∅
  · have w1 := (shingleSet_eq_empty_iff k text1).mp h1
    by_cases h2 : shingleSet k text2 = ∅
    · have w2 := (shingleSet_eq_empty_iff k text2).mp h2
      simp [calculateSimilarity, h1, h2, w1, w2]
    · have w2 : ¬ windowSet k text2 = ∅ := fun h => h2 ((shingleSet_eq_empty_iff k text2).mpr h)
      simp [calculateSimilarity, h1, h2, w1, w2]
  · have w1 : ¬ windowSet k text1 = ∅ := fun h => h1 ((shingleSet_eq_empty_iff k text1).mpr h)
    by_cases h2 : shingleSet k text2 = ∅
    · have w2 := (shingleSet_eq_empty_iff k text2).mp h2
      simp [calculateSimilarity, h1, h2, w1, w2]
    · have w2 : ¬ windowSet k text2 = ∅ := fun h => h2 ((shingleSet_eq_empty_iff k text2).mpr h)
      rw [calculateSimilarity_eq _ h1 h2]
      simp only [shingleSet_inter_card k hk, shingleSet_union_card k hk]
      rw [if_neg (fun h => w1 h.1), if_neg (fun h => h.elim w1 w2)]

/-- C19: for every window size `k ≤ 3`, the default 3 included, the window hash is injective:
two windows of `k` bytes have equal hashes only if they are equal byte for byte (since
`256^3 < 1000000007`), so the fingerprint `generateNgrams` builds is in bijection with the set
of distinct `k`-byte windows, and intersection, union and score are those of the window
sets: no collision affects the score. -/
theorem windowHash_injective_small_window (d : PlagiarismDetector) (text1 text2 : List Byte)
    (hk : d.ngram_size ≤ 3) :
    256 ^ 3 < MOD
      ∧ (∀ i1 i2, i1 + d.ngram_size ≤ text1.length → i2 + d.ngram_size ≤ text2.length →
          (windowHash d text1 i1 = windowHash d text2 i2
            ↔ windowAt d.ngram_size text1 i1 = windowAt d.ngram_size text2 i2))
      ∧ ∃ F1 F2, generateNgrams d text1 ∅ = some F1 ∧ generateNgrams d text2 ∅ = some F2
          ∧ F1.card = (windowSet d.ngram_size text1).card
          ∧ F2.card = (windowSet d.ngram_size text2).card
          ∧ (F1 ∩ F2).card
              = (windowSet d.ngram_size text1 ∩ windowSet d.ngram_size text2).card
          ∧ (F1 ∪ F2).card
              = (windowSet d.ngram_size text1 ∪ windowSet d.ngram_size text2).card
          ∧ calculateSimilarity ⟨d.ngram_size, F1, F2⟩
              = windowSimilarity (windowSet d.ngram_size text1)
                  (windowSet d.ngram_size text2) := by
  refine ⟨by decide, ?_, ?_⟩
  · intro i1 i2 h1 h2
    rw [windowHash_eq d text1 i1 h1, windowHash_eq d text2 i2 h2, Option.some.injEq,
      ← polynomialHash_windowAt d.ngram_size text1 i1,
      ← polynomialHash_windowAt d.ngram_size text2 i2]
    constructor
    · intro h
      exact polynomialHash_injOn d.ngram_size hk _ _
        (windowAt_length _ text1 i1 h1) (windowAt_length _ text2 i2 h2) h
    · intro h
      rw [h]
  · refine ⟨shingleSet d.ngram_size text1, shingleSet d.ngram_size text2, ?_, ?_,
      shingleSet_card _ hk text1, shingleSet_card _ hk text2,
      shingleSet_inter_card _ hk text1 text2, shingleSet_union_card _ hk text1 text2,
      calculateSimilarity_eq_windowSimilarity _ hk text1 text2⟩
    · rw [generateNgrams_eq, Finset.empty_union]
    · rw [generateNgrams_eq, Finset.empty_union]

/-- Witness for C19: the default window size on "abcdef" and "abcxyz". -/
theorem windowHash_injective_small_window_witness :
    (new 0).ngram_size ≤ 3 ∧
      ∃ F1 F2, generateNgrams (new 0) asciiAbcdef ∅ = some F1
        ∧ generateNgrams (new 0) asciiAbcxyz ∅ = some F2
        ∧ F1.card = (windowSet (new 0).ngram_size asciiAbcdef).card
        ∧ F2.card = (windowSet (new 0).ngram_size asciiAbcxyz).card
        ∧ (F1 ∩ F2).card
            = (windowSet (new 0).ngram_size asciiAbcdef
                ∩ windowSet (new 0).ngram_size asciiAbcxyz).card
        ∧ (F1 ∪ F2).card
            = (windowSet (new 0).ngram_size asciiAbcdef
                ∪ windowSet (new 0).ngram_size asciiAbcxyz).card
        ∧ calculateSimilarity ⟨(new 0).ngram_size, F1, F2⟩
            = windowSimilarity (windowSet (new 0).ngram_size asciiAbcdef)
                (windowSet (new 0).ngram_size asciiAbcxyz) :=
  ⟨by decide,
    (windowHash_injective_small_window (new 0) asciiAbcdef asciiAbcxyz (by decide)).2.2⟩

end PlagiarismDetector
